import Mathlib

/-!
Verification of the `gdct` fluent SQL query builder (`builder.go`).

Go strings are modelled as `List Char` (`GoStr`), Go `interface{}` argument
values as the closed sum `GoVal`, Go `error` values as the inductive `GoErr`
(one constructor per distinct `fmt.Errorf` site that matters to the builder),
and the `QueryBuilder` struct as a Lean structure.  A Go `nil` slice or map is
an `Option` `none`; a non-nil one is `some`.  Since Go does not specify the
iteration order of a `map`, the builders that iterate `qb.data`
(`buildInsert`, `buildUpdate`) take the enumeration order the runtime
presents as an explicit parameter `iter`; it is meaningful when it is a
permutation of the stored entries.
-/

/-- Go strings, modelled as their character lists. -/
abbrev GoStr := List Char

/-- Coerce a Lean string literal to the `GoStr` model. -/
def str (s : String) : GoStr := s.toList

/-- Closed model of the `interface{}` values bound as query arguments. -/
inductive GoVal where
  | vInt (n : Int)
  | vStr (s : GoStr)
  | vBool (b : Bool)
  | vNull
  deriving DecidableEq

/-- Model of `DBType` from `builder.go`; `other` carries any string that is not one of
the four declared constants. -/
inductive DBType where
  | postgres
  | mariadb
  | mysql
  | sqlite3
  | other (s : GoStr)
  deriving DecidableEq

/-- Model of `DBType.IsValid` from `builder.go`. -/
def DBType.isValid : DBType → Bool
  | .postgres | .mariadb | .mysql | .sqlite3 => true
  | .other _ => false

/-- The distinct `error` values produced in `builder.go`, one constructor per
`fmt.Errorf` call site reachable from the modelled functions. -/
inductive GoErr where
  | invalidDBType (d : DBType)
  | emptyTableName
  | invalidTableName (e : GoErr)
  | emptyIdentifier
  | distinctRequiresSelect
  | aggregateRequiresSelect
  | aggregateEmptyFunction
  | invalidAggregateColumn (e : GoErr)
  | selectRequiresSelect
  | emptyCondition
  | valuesRequiresInsert
  | valuesEmpty
  | setRequiresUpdate
  | setEmpty
  | returningRequiresInsert
  | betweenPlaceholderFailure
  | noDataForInsert
  | noDataForUpdate
  | unsupportedOperation (op : GoStr)
  deriving DecidableEq

/-- Numeric value of a decimal digit character (its code point minus 48). -/
def chVal (c : Char) : Nat := c.toNat - 48

/-- Fuelled decimal rendering: `natToCharsAux fuel n` is the decimal digit
string of `n` (empty for `n = 0`), provided `fuel ≥ n`. -/
def natToCharsAux : Nat → Nat → List Char
  | 0, _ => []
  | _, 0 => []
  | fuel + 1, n + 1 =>
      natToCharsAux fuel ((n + 1) / 10) ++ [Nat.digitChar ((n + 1) % 10)]

/-- Decimal rendering of a natural number, as produced by Go's
`strconv.Itoa` / `fmt.Sprintf("%d", ·)` for non-negative values. -/
def natToChars (n : Nat) : GoStr := if n = 0 then ['0'] else natToCharsAux n n

/-- Left fold accumulating the decimal value of a digit string. -/
def charsVal (s : List Char) : Nat := s.foldl (fun a c => 10 * a + chVal c) 0

/-- Model of `strings.Join(elems, sep)` from the Go standard library. -/
def joinSep (sep : GoStr) : List GoStr → GoStr
  | [] => []
  | [x] => x
  | x :: xs => x ++ sep ++ joinSep sep xs

/-- Model of `EscapeIdentifier` from `builder.go`: `"*"` passes through, the empty
identifier is rejected, everything else is returned unchanged (the quoting
code is commented out in the source). -/
def EscapeIdentifier (dbType : DBType) (name : GoStr) : Except GoErr GoStr :=
  if name = ['*'] then .ok name
  else if name = [] then .error .emptyIdentifier
  else .ok name

/-- The loop body of `ReplacePlaceholders` for the `$n` dialect: the Go code
repeatedly replaces the leftmost `?` of the working string with `$k`
(`k = start, start+1, …`); since the substituted text never contains `?`,
this is exactly a single left-to-right pass over the input. -/
def replacePH : List Char → Nat → List Char
  | [], _ => []
  | c :: cs, n =>
      if c = '?' then '$' :: natToChars n ++ replacePH cs (n + 1)
      else c :: replacePH cs n

/-- Model of `ReplacePlaceholders` from `builder.go`. -/
def ReplacePlaceholders (dbType : DBType) (input : GoStr) (start : Nat) :
    GoStr :=
  match dbType with
  | .postgres => replacePH input start
  | _ => input

/-- One placeholder token: `$i` for the positional-numbered dialect, the
anonymous marker otherwise (the `switch` body of `GeneratePlaceholders`). -/
def phTok (dbType : DBType) (i : Nat) : GoStr :=
  match dbType with
  | .postgres => '$' :: natToChars i
  | _ => ['?']

/-- Model of `GeneratePlaceholders` from `builder.go`. -/
def GeneratePlaceholders (dbType : DBType) (start count : Nat) : GoStr :=
  joinSep (str ", ") ((List.range count).map fun i => phTok dbType (start + i))

/-- Model of `strings.ToUpper`, restricted to the per-character uppercase map (the
builder only compares the result against the ASCII words `ASC`/`DESC`). -/
def toUpperStr (s : GoStr) : GoStr := s.map Char.toUpper

/-- Model of `ValidateDirection` from `builder.go`. -/
def ValidateDirection (dir : GoStr) : GoStr :=
  if toUpperStr dir = str "ASC" ∨ toUpperStr dir = str "DESC" then
    toUpperStr dir
  else str "ASC"

/-- Helper of `splitCommaSpace`: prepend a character to the first part. -/
def splitConsHead (c : Char) : List GoStr → List GoStr
  | [] => [[c]]
  | p :: ps => (c :: p) :: ps

/-- Model of `strings.Split(s, ", ")` from the Go standard library: split around each
leftmost non-overlapping occurrence of the two-character separator. -/
def splitCommaSpace : List Char → List GoStr
  | [] => [[]]
  | ',' :: ' ' :: rest => [] :: splitCommaSpace rest
  | c :: rest => splitConsHead c (splitCommaSpace rest)

/-- The `QueryBuilder` struct from `builder.go`.  `data` is `none` for a Go
`nil` map and otherwise carries the inserted column/value pairs; the order in
which the Go runtime enumerates them is *not* part of the state (see the
`iter` parameter of `build`). -/
structure QueryBuilder where
  op : GoStr
  dbType : DBType
  table : GoStr
  columns : List GoStr
  joins : List GoStr
  conditions : List GoStr
  groupBy : List GoStr
  having : List GoStr
  orderBy : GoStr
  limit : Int
  offset : Int
  args : List GoVal
  distinct : Bool
  err : Option GoErr
  data : Option (List (GoStr × GoVal))
  returning : GoStr
  deriving DecidableEq

/-- The per-column loop of `sanitizeColumns`: escape each column in order,
aborting on the first error. -/
def sanitizeLoop (dbType : DBType) : List GoStr → Except GoErr (List GoStr)
  | [] => .ok []
  | col :: rest =>
      match EscapeIdentifier dbType col with
      | .error e => .error e
      | .ok safe =>
          match sanitizeLoop dbType rest with
          | .error e => .error e
          | .ok others => .ok (safe :: others)

/-- Model of `sanitizeColumns` from `builder.go` (the `errRef` out-parameter becomes
the `Except` error). -/
def sanitizeColumns (dbType : DBType) (columns : List GoStr) :
    Except GoErr (List GoStr) :=
  if columns = [] then .ok [str "*"] else sanitizeLoop dbType columns

/-- Model of `newBuilder` from `builder.go`. -/
def newBuilder (dbType : DBType) (table : GoStr) (op : GoStr)
    (columns : List GoStr) : QueryBuilder :=
  let qb0 : QueryBuilder :=
    { op := op, dbType := dbType, table := [], columns := [], joins := []
      conditions := [], groupBy := [], having := [], orderBy := []
      limit := 0, offset := 0, args := [], distinct := false, err := none
      data := none, returning := [] }
  if ¬ dbType.isValid then
    { qb0 with err := some (.invalidDBType dbType) }
  else if table = [] then
    { qb0 with err := some .emptyTableName }
  else
    match EscapeIdentifier dbType table with
    | .error e => { qb0 with err := some (.invalidTableName e) }
    | .ok safeTable =>
        match sanitizeColumns dbType columns with
        | .error e => { qb0 with table := safeTable, err := some e }
        | .ok cols => { qb0 with table := safeTable, columns := cols }

/-- Model of `BuildSelect` from `builder.go`. -/
def BuildSelect (dbType : DBType) (table : GoStr)
    (columns : List GoStr) : QueryBuilder :=
  newBuilder dbType table (str "SELECT") columns

/-- Model of `BuildInsert` from `builder.go`. -/
def BuildInsert (dbType : DBType) (table : GoStr) : QueryBuilder :=
  newBuilder dbType table (str "INSERT") []

/-- Model of `BuildUpdate` from `builder.go`. -/
def BuildUpdate (dbType : DBType) (table : GoStr) : QueryBuilder :=
  newBuilder dbType table (str "UPDATE") []

/-- Model of `BuildDelete` from `builder.go`. -/
def BuildDelete (dbType : DBType) (table : GoStr) : QueryBuilder :=
  newBuilder dbType table (str "DELETE") []

/-- Model of `Distinct` from `builder.go`. -/
def QueryBuilder.Distinct (qb : QueryBuilder) : QueryBuilder :=
  if qb.err.isSome then qb
  else if qb.op ≠ str "SELECT" then
    { qb with err := some .distinctRequiresSelect }
  else { qb with distinct := true }

/-- Model of `Aggregate` from `builder.go`. -/
def QueryBuilder.Aggregate (qb : QueryBuilder) (function column : GoStr) :
    QueryBuilder :=
  if qb.err.isSome then qb
  else if qb.op ≠ str "SELECT" then
    { qb with err := some .aggregateRequiresSelect }
  else if function = [] then
    { qb with err := some .aggregateEmptyFunction }
  else if column = ['*'] then
    { qb with columns := qb.columns ++ [function ++ ['('] ++ column ++ [')']] }
  else
    match EscapeIdentifier qb.dbType column with
    | .error e => { qb with err := some (.invalidAggregateColumn e) }
    | .ok safeCol =>
        { qb with
          columns := qb.columns ++ [function ++ ['('] ++ safeCol ++ [')']] }

/-- Model of `Select` from `builder.go`. -/
def QueryBuilder.Select (qb : QueryBuilder) (columns : List GoStr) :
    QueryBuilder :=
  if qb.err.isSome then qb
  else if qb.op ≠ str "SELECT" then
    { qb with err := some .selectRequiresSelect }
  else
    match sanitizeColumns qb.dbType columns with
    | .error e => { qb with err := some e }
    | .ok safeColumns => { qb with columns := qb.columns ++ safeColumns }

/-- Model of `OrWhere` from `builder.go`. -/
def QueryBuilder.OrWhere (qb : QueryBuilder) (condition : GoStr)
    (args : List GoVal) : QueryBuilder :=
  if qb.err.isSome then qb
  else if condition = [] then { qb with err := some .emptyCondition }
  else
    let updated :=
      ReplacePlaceholders qb.dbType condition (qb.args.length + 1)
    if h : qb.conditions ≠ [] then
      { qb with
        conditions := qb.conditions.dropLast ++
          [['('] ++ qb.conditions.getLast h ++ str " OR " ++ updated ++ [')']]
        args := qb.args ++ args }
    else
      { qb with conditions := qb.conditions ++ [updated]
                args := qb.args ++ args }

/-- Model of `LeftJoin` from `builder.go`. -/
def QueryBuilder.LeftJoin (qb : QueryBuilder)
    (joinTable onCondition : GoStr) : QueryBuilder :=
  if qb.err.isSome then qb
  else
    match EscapeIdentifier qb.dbType joinTable with
    | .error e => { qb with err := some e }
    | .ok safeTable =>
        { qb with joins := qb.joins ++
            [str "LEFT JOIN " ++ safeTable ++ str " ON " ++ onCondition] }

/-- Model of `InnerJoin` from `builder.go`. -/
def QueryBuilder.InnerJoin (qb : QueryBuilder)
    (joinTable onCondition : GoStr) : QueryBuilder :=
  if qb.err.isSome then qb
  else
    match EscapeIdentifier qb.dbType joinTable with
    | .error e => { qb with err := some e }
    | .ok safeTable =>
        { qb with joins := qb.joins ++
            [str "INNER JOIN " ++ safeTable ++ str " ON " ++ onCondition] }

/-- Model of `RightJoin` from `builder.go`. -/
def QueryBuilder.RightJoin (qb : QueryBuilder)
    (joinTable onCondition : GoStr) : QueryBuilder :=
  if qb.err.isSome then qb
  else
    match EscapeIdentifier qb.dbType joinTable with
    | .error e => { qb with err := some e }
    | .ok safeTable =>
        { qb with joins := qb.joins ++
            [str "RIGHT JOIN " ++ safeTable ++ str " ON " ++ onCondition] }

/-- Model of `Where` from `builder.go`. -/
def QueryBuilder.Where (qb : QueryBuilder) (condition : GoStr)
    (args : List GoVal) : QueryBuilder :=
  if qb.err.isSome then qb
  else if condition = [] then { qb with err := some .emptyCondition }
  else
    let updated :=
      ReplacePlaceholders qb.dbType condition (qb.args.length + 1)
    { qb with conditions := qb.conditions ++ [updated]
              args := qb.args ++ args }

/-- Model of `WhereIn` from `builder.go`. -/
def QueryBuilder.WhereIn (qb : QueryBuilder) (column : GoStr)
    (values : List GoVal) : QueryBuilder :=
  if qb.err.isSome then qb
  else
    match EscapeIdentifier qb.dbType column with
    | .error e => { qb with err := some e }
    | .ok safeCol =>
        let placeholders :=
          GeneratePlaceholders qb.dbType (qb.args.length + 1) values.length
        { qb with
          conditions := qb.conditions ++
            [safeCol ++ str " IN (" ++ placeholders ++ [')']]
          args := qb.args ++ values }

/-- Model of `WhereBetween` from `builder.go`. -/
def QueryBuilder.WhereBetween (qb : QueryBuilder) (column : GoStr)
    (start finish : GoVal) : QueryBuilder :=
  if qb.err.isSome then qb
  else
    match EscapeIdentifier qb.dbType column with
    | .error e => { qb with err := some e }
    | .ok safeCol =>
        let placeholders :=
          GeneratePlaceholders qb.dbType (qb.args.length + 1) 2
        let placeholderSlices := splitCommaSpace placeholders
        if placeholderSlices.length ≠ 2 then
          { qb with err := some .betweenPlaceholderFailure }
        else
          { qb with
            conditions := qb.conditions ++
              [safeCol ++ str " BETWEEN " ++ placeholderSlices.headI ++
                str " AND " ++ placeholderSlices.tail.headI]
            args := qb.args ++ [start, finish] }

/-- The per-column loop of `GroupBy` from `builder.go`: escape and append
each column, stopping at the first error. -/
def groupByLoop (qb : QueryBuilder) : List GoStr → QueryBuilder
  | [] => qb
  | col :: rest =>
      match EscapeIdentifier qb.dbType col with
      | .error e => { qb with err := some e }
      | .ok safeCol =>
          groupByLoop { qb with groupBy := qb.groupBy ++ [safeCol] } rest

/-- Model of `GroupBy` from `builder.go`. -/
def QueryBuilder.GroupBy (qb : QueryBuilder) (columns : List GoStr) :
    QueryBuilder :=
  if qb.err.isSome then qb else groupByLoop qb columns

/-- Model of `Having` from `builder.go`.  Note: unlike `Where`, the source has no
empty-condition check. -/
def QueryBuilder.Having (qb : QueryBuilder) (condition : GoStr)
    (args : List GoVal) : QueryBuilder :=
  if qb.err.isSome then qb
  else
    let updated :=
      ReplacePlaceholders qb.dbType condition (qb.args.length + 1)
    { qb with having := qb.having ++ [updated]
              args := qb.args ++ args }

/-- Key-presence test of a Go `map[string]bool`, modelled as an association
list (`_, ok := m[k]` ignores the stored boolean). -/
def mapContains (m : List (GoStr × Bool)) (k : GoStr) : Bool :=
  (m.find? fun p => p.1 = k).isSome

/-- Model of `OrderBy` from `builder.go`.  `allowedColumns` is `none` for a Go `nil`
map. -/
def QueryBuilder.OrderBy (qb : QueryBuilder) (column direction : GoStr)
    (allowedColumns : Option (List (GoStr × Bool))) : QueryBuilder :=
  if qb.err.isSome then qb
  else
    let direction := ValidateDirection direction
    let column :=
      match allowedColumns with
      | none => column
      | some m => if mapContains m column then column else str "id"
    match EscapeIdentifier qb.dbType column with
    | .error e => { qb with err := some e }
    | .ok safeCol => { qb with orderBy := safeCol ++ [' '] ++ direction }

/-- Model of `Limit` from `builder.go`. -/
def QueryBuilder.Limit (qb : QueryBuilder) (limit : Int) : QueryBuilder :=
  if qb.err.isSome then qb else { qb with limit := limit }

/-- Model of `Offset` from `builder.go`. -/
def QueryBuilder.Offset (qb : QueryBuilder) (offset : Int) : QueryBuilder :=
  if qb.err.isSome then qb else { qb with offset := offset }

/-- Model of `Values` from `builder.go`; the argument is the entry list of the Go
map literal passed in. -/
def QueryBuilder.Values (qb : QueryBuilder)
    (data : List (GoStr × GoVal)) : QueryBuilder :=
  if qb.err.isSome then qb
  else if qb.op ≠ str "INSERT" then
    { qb with err := some .valuesRequiresInsert }
  else if data = [] then { qb with err := some .valuesEmpty }
  else { qb with data := some data }

/-- Model of `Set` from `builder.go`. -/
def QueryBuilder.Set (qb : QueryBuilder)
    (data : List (GoStr × GoVal)) : QueryBuilder :=
  if qb.err.isSome then qb
  else if qb.op ≠ str "UPDATE" then
    { qb with err := some .setRequiresUpdate }
  else if data = [] then { qb with err := some .setEmpty }
  else { qb with data := some data }

/-- Model of `Returning` from `builder.go`.  Faithful to the source: there is *no*
`qb.err != nil` guard, so the wrong-operation branch overwrites any earlier
error and the success branch mutates `returning` even on a failed builder. -/
def QueryBuilder.Returning (qb : QueryBuilder) (clause : GoStr) :
    QueryBuilder :=
  if qb.op ≠ str "INSERT" then
    { qb with err := some .returningRequiresInsert }
  else { qb with returning := clause }

/-- Model of `buildSelect` from `builder.go`.  The `strings.Builder` writes become one
left-to-right concatenation; the triple mirrors the Go return values, with
`some` for a returned slice variable and `none` for a literal `nil`. -/
def QueryBuilder.buildSelect (qb : QueryBuilder) :
    GoStr × Option (List GoVal) × Option GoErr :=
  let args0 := qb.args
  let base :=
    str "SELECT " ++ (if qb.distinct then str "DISTINCT " else []) ++
    joinSep (str ", ") qb.columns ++ str " FROM " ++ qb.table ++
    (if qb.joins ≠ [] then [' '] ++ joinSep [' '] qb.joins else []) ++
    (if qb.conditions ≠ [] then
      str " WHERE " ++ joinSep (str " AND ") qb.conditions else []) ++
    (if qb.groupBy ≠ [] then
      str " GROUP BY " ++ joinSep (str ", ") qb.groupBy else []) ++
    (if qb.having ≠ [] then
      str " HAVING " ++ joinSep (str " AND ") qb.having else []) ++
    (if qb.orderBy ≠ [] then str " ORDER BY " ++ qb.orderBy else [])
  let step1 :=
    if qb.limit > 0 then
      (base ++
        (if qb.dbType = .postgres then
          str " LIMIT $" ++ natToChars (args0.length + 1)
        else str " LIMIT ?"),
       args0 ++ [GoVal.vInt qb.limit])
    else (base, args0)
  let step2 :=
    if qb.offset > 0 then
      (step1.1 ++
        (if qb.dbType = .postgres then
          str " OFFSET $" ++ natToChars (step1.2.length + 1)
        else str " OFFSET ?"),
       step1.2 ++ [GoVal.vInt qb.offset])
    else step1
  (step2.1, some step2.2, none)

/-- The `for col, val := range qb.data` loop of `buildInsert`: builds the
column list, placeholder list, and argument list in one pass, aborting on the
first escape error.  `i` is the running placeholder index. -/
def insertLoop (dbType : DBType) :
    List (GoStr × GoVal) → Nat →
      Except GoErr (List GoStr × List GoStr × List GoVal)
  | [], _ => .ok ([], [], [])
  | (col, val) :: rest, i =>
      match EscapeIdentifier dbType col with
      | .error e => .error e
      | .ok safeCol =>
          match insertLoop dbType rest (i + 1) with
          | .error e => .error e
          | .ok (cols, phs, args) =>
              .ok (safeCol :: cols,
                (if dbType = .postgres then '$' :: natToChars i
                 else ['?']) :: phs,
                val :: args)

/-- Model of `buildInsert` from `builder.go`.  `iter` is the order in which the Go
runtime enumerates `qb.data` (unspecified for Go maps); it is meaningful when
it is a permutation of the stored entries. -/
def QueryBuilder.buildInsert (qb : QueryBuilder)
    (iter : List (GoStr × GoVal)) :
    GoStr × Option (List GoVal) × Option GoErr :=
  match qb.data with
  | none => ([], none, some .noDataForInsert)
  | some _ =>
      match insertLoop qb.dbType iter 1 with
      | .error e => ([], none, some e)
      | .ok (cols, phs, args) =>
          let query :=
            str "INSERT INTO " ++ qb.table ++ str " (" ++
            joinSep (str ", ") cols ++ str ") VALUES (" ++
            joinSep (str ", ") phs ++ [')']
          let query :=
            if qb.dbType = .postgres ∧ qb.returning ≠ [] then
              query ++ str " RETURNING " ++ qb.returning
            else query
          (query, some args, none)

/-- The `for col, val := range qb.data` loop of `buildUpdate`: builds the
`col = placeholder` assignment list and the SET argument list. -/
def updateLoop (dbType : DBType) :
    List (GoStr × GoVal) → Nat → Except GoErr (List GoStr × List GoVal)
  | [], _ => .ok ([], [])
  | (col, val) :: rest, i =>
      match EscapeIdentifier dbType col with
      | .error e => .error e
      | .ok safeCol =>
          match updateLoop dbType rest (i + 1) with
          | .error e => .error e
          | .ok (clauses, args) =>
              .ok ((safeCol ++
                  (if dbType = .postgres then str " = $" ++ natToChars i
                   else str " = ?")) :: clauses,
                val :: args)

/-- Model of `buildUpdate` from `builder.go`, with the map-enumeration order `iter` as
for `buildInsert`.  The accumulated WHERE arguments are appended after the
SET arguments only when conditions exist. -/
def QueryBuilder.buildUpdate (qb : QueryBuilder)
    (iter : List (GoStr × GoVal)) :
    GoStr × Option (List GoVal) × Option GoErr :=
  match qb.data with
  | none => ([], none, some .noDataForUpdate)
  | some _ =>
      match updateLoop qb.dbType iter 1 with
      | .error e => ([], none, some e)
      | .ok (setClauses, updateArgs) =>
          let query :=
            str "UPDATE " ++ qb.table ++ str " SET " ++
            joinSep (str ", ") setClauses
          if qb.conditions ≠ [] then
            (query ++ str " WHERE " ++ joinSep (str " AND ") qb.conditions,
             some (updateArgs ++ qb.args), none)
          else (query, some updateArgs, none)

/-- Model of `buildDelete` from `builder.go`. -/
def QueryBuilder.buildDelete (qb : QueryBuilder) :
    GoStr × Option (List GoVal) × Option GoErr :=
  (str "DELETE FROM " ++ qb.table ++
    (if qb.conditions ≠ [] then
      str " WHERE " ++ joinSep (str " AND ") qb.conditions else []),
   some qb.args, none)

/-- Model of `Build` from `builder.go`.  `iter` is passed through to the assemblers
that enumerate `qb.data`. -/
def QueryBuilder.Build (qb : QueryBuilder)
    (iter : List (GoStr × GoVal)) :
    GoStr × Option (List GoVal) × Option GoErr :=
  match qb.err with
  | some e => ([], none, some e)
  | none =>
      if qb.op = str "SELECT" then qb.buildSelect
      else if qb.op = str "INSERT" then qb.buildInsert iter
      else if qb.op = str "UPDATE" then qb.buildUpdate iter
      else if qb.op = str "DELETE" then qb.buildDelete
      else ([], none, some (.unsupportedOperation qb.op))

/-- Model of `Subquery` from `builder.go`: builds the inner query (using `iter` as its
map-enumeration order), splices its arguments onto the outer builder, and
returns the updated outer builder together with the returned string.
Faithful to the source: there is *no* `qb.err != nil` guard. -/
def QueryBuilder.Subquery (qb sub : QueryBuilder)
    (iter : List (GoStr × GoVal)) (aliasName : GoStr) :
    QueryBuilder × GoStr :=
  match sub.Build iter with
  | (_, _, some e) => ({ qb with err := some e }, [])
  | (subSql, subArgs, none) =>
      ({ qb with args := qb.args ++ subArgs.getD [] },
       ['('] ++ subSql ++ str ") AS " ++ aliasName)

/-- State of the placeholder scanner: outside any token, just after a `$`,
or inside the digit run of a placeholder whose value so far is `n`. -/
inductive ScanSt where
  | outside
  | afterDollar
  | num (n : Nat)
  deriving DecidableEq

/-- One-pass scanner extracting, in order of appearance, the numbers of all
`$<digits>` placeholder tokens of a string (the matches of the source's
`placeholderRegexp`, i.e. the positional-numbered dialect's bind markers). -/
def scanAux : List Char → ScanSt → List Nat
  | [], .outside => []
  | [], .afterDollar => []
  | [], .num n => [n]
  | c :: cs, .outside =>
      if c = '$' then scanAux cs .afterDollar else scanAux cs .outside
  | c :: cs, .afterDollar =>
      if c.isDigit then scanAux cs (.num (chVal c))
      else if c = '$' then scanAux cs .afterDollar
      else scanAux cs .outside
  | c :: cs, .num n =>
      if c.isDigit then scanAux cs (.num (10 * n + chVal c))
      else n ::
        (if c = '$' then scanAux cs .afterDollar else scanAux cs .outside)

/-- The placeholder numbers appearing in a string, in order of appearance. -/
def scanPH (s : GoStr) : List Nat := scanAux s .outside

/-- A string whose first character (if any) is not a decimal digit. -/
def headND (s : GoStr) : Prop := ∀ c ∈ s.head?, c.isDigit = false

/-- Holds exactly when the string contains no `$` character (so it cannot interfere
with positional placeholder tokens). -/
def noDollar (s : GoStr) : Bool := !(s.contains '$')

/-- Holds exactly when no anonymous `?` marker is immediately followed by a decimal
digit (such adjacency would corrupt the substituted `$n` token). -/
def noQD : List Char → Bool
  | c :: d :: rest => !(c == '?' && d.isDigit) && noQD (d :: rest)
  | _ => true

/-- The number of anonymous `?` markers in a template. -/
def countQ (s : GoStr) : Nat := s.count '?'

/-- Spec-side rendering of the UPDATE SET clause (§4.3: `col = placeholder`
assignments numbered starting at `i`, one per enumerated entry, in order). -/
def specAssignments (dbType : DBType) : Nat → List (GoStr × GoVal) → List GoStr
  | _, [] => []
  | i, (col, _) :: rest =>
      (col ++ str " = " ++ phTok dbType i) ::
        specAssignments dbType (i + 1) rest

/-- The SELECT-clause mutator calls (the fluent API of §4.2 minus the
INSERT/UPDATE-only calls), reified so that sequences of chained calls can be
quantified over. -/
inductive SelOp where
  | opSelect (cols : List GoStr)
  | opAggregate (function column : GoStr)
  | opDistinct
  | opLeftJoin (joinTable onCondition : GoStr)
  | opInnerJoin (joinTable onCondition : GoStr)
  | opRightJoin (joinTable onCondition : GoStr)
  | opWhere (condition : GoStr) (args : List GoVal)
  | opOrWhere (condition : GoStr) (args : List GoVal)
  | opWhereIn (column : GoStr) (values : List GoVal)
  | opWhereBetween (column : GoStr) (start finish : GoVal)
  | opGroupBy (cols : List GoStr)
  | opHaving (condition : GoStr) (args : List GoVal)
  | opOrderBy (column direction : GoStr)
      (allowed : Option (List (GoStr × Bool)))
  | opLimit (n : Int)
  | opOffset (n : Int)
  deriving DecidableEq

/-- Apply one reified call to the builder (each case is the corresponding
method from `builder.go`). -/
def applyOp (qb : QueryBuilder) : SelOp → QueryBuilder
  | .opSelect cols => qb.Select cols
  | .opAggregate fn col => qb.Aggregate fn col
  | .opDistinct => qb.Distinct
  | .opLeftJoin t c => qb.LeftJoin t c
  | .opInnerJoin t c => qb.InnerJoin t c
  | .opRightJoin t c => qb.RightJoin t c
  | .opWhere c a => qb.Where c a
  | .opOrWhere c a => qb.OrWhere c a
  | .opWhereIn col vs => qb.WhereIn col vs
  | .opWhereBetween col a b => qb.WhereBetween col a b
  | .opGroupBy cols => qb.GroupBy cols
  | .opHaving c a => qb.Having c a
  | .opOrderBy col dir al => qb.OrderBy col dir al
  | .opLimit n => qb.Limit n
  | .opOffset n => qb.Offset n

/-- Apply a chain of calls left to right. -/
def applyOps (qb : QueryBuilder) (ops : List SelOp) : QueryBuilder :=
  ops.foldl applyOp qb

/-- Well-formedness of one call, as presupposed by the claim: every string
embedded verbatim into SQL is `$`-free, and predicate templates have no
marker directly followed by a digit and supply exactly as many arguments as
anonymous markers. -/
def SelOp.wf : SelOp → Bool
  | .opSelect cols => cols.all noDollar
  | .opAggregate fn col => noDollar fn && noDollar col
  | .opDistinct => true
  | .opLeftJoin t c => noDollar t && noDollar c
  | .opInnerJoin t c => noDollar t && noDollar c
  | .opRightJoin t c => noDollar t && noDollar c
  | .opWhere c a => noDollar c && noQD c && (countQ c == a.length)
  | .opOrWhere c a => noDollar c && noQD c && (countQ c == a.length)
  | .opWhereIn col _ => noDollar col
  | .opWhereBetween col _ _ => noDollar col
  | .opGroupBy cols => cols.all noDollar
  | .opHaving c a => noDollar c && noQD c && (countQ c == a.length)
  | .opOrderBy col _ _ => noDollar col
  | .opLimit _ => true
  | .opOffset _ => true

/-- The calls that append a WHERE condition fragment. -/
def SelOp.isWhereFam : SelOp → Bool
  | .opWhere _ _ => true
  | .opOrWhere _ _ => true
  | .opWhereIn _ _ => true
  | .opWhereBetween _ _ _ => true
  | _ => false

/-- The calls that append a HAVING fragment. -/
def SelOp.isHaving : SelOp → Bool
  | .opHaving _ _ => true
  | _ => false

/-- No WHERE-family call occurs after a HAVING call (the clause-order
proviso under which the claim's strict placeholder ordering holds). -/
def noWhereAfterHaving : List SelOp → Bool
  | [] => true
  | o :: rest =>
      (if o.isHaving then rest.all fun p => !p.isWhereFam else true) &&
        noWhereAfterHaving rest

/-- Invariant of an open positional-dialect SELECT builder: no stray `$` in
any non-parameterized fragment, and the placeholders frozen in the stored
WHERE and HAVING fragments are exactly `$1 … $n` for the `n` accumulated
arguments, in fragment order (WHERE fragments first). -/
def SelInv (qb : QueryBuilder) : Prop :=
  qb.err = none →
    qb.dbType = .postgres ∧
    '$' ∉ qb.table ∧
    (∀ s ∈ qb.columns, '$' ∉ s) ∧
    (∀ s ∈ qb.joins, '$' ∉ s) ∧
    (∀ s ∈ qb.groupBy, '$' ∉ s) ∧
    '$' ∉ qb.orderBy ∧
    scanPH (joinSep (str " AND ") qb.conditions) ++
      scanPH (joinSep (str " AND ") qb.having) =
      List.range' 1 qb.args.length

theorem charsVal_append_singleton (xs : List Char) (c : Char) :
    charsVal (xs ++ [c]) = 10 * charsVal xs + chVal c := by
  simp [charsVal, List.foldl_append]

theorem digitChar_isDigit {d : Nat} (h : d < 10) :
    (Nat.digitChar d).isDigit = true := by
  interval_cases d <;> decide

theorem chVal_digitChar {d : Nat} (h : d < 10) :
    chVal (Nat.digitChar d) = d := by
  interval_cases d <;> decide

theorem natToCharsAux_spec :
    ∀ fuel n, 1 ≤ n → n ≤ fuel →
      charsVal (natToCharsAux fuel n) = n ∧
      (∀ c ∈ natToCharsAux fuel n, c.isDigit = true) ∧
      natToCharsAux fuel n ≠ [] := by
  intro fuel
  induction fuel with
  | zero => intro n h1 h2; omega
  | succ fuel ih =>
      intro n h1 h2
      obtain ⟨m, rfl⟩ : ∃ m, n = m + 1 := ⟨n - 1, by omega⟩
      have hstep : natToCharsAux (fuel + 1) (m + 1) =
          natToCharsAux fuel ((m + 1) / 10) ++
            [Nat.digitChar ((m + 1) % 10)] := rfl
      rw [hstep]
      rcases Nat.eq_zero_or_pos ((m + 1) / 10) with hq | hq
      · have hm : m + 1 < 10 := by omega
        have hmod : (m + 1) % 10 = m + 1 := Nat.mod_eq_of_lt hm
        have haux : natToCharsAux fuel ((m + 1) / 10) = [] := by
          rw [hq]; cases fuel <;> rfl
        refine ⟨?_, ?_, by simp [haux]⟩
        · rw [haux, charsVal_append_singleton]
          simp [charsVal, hmod, chVal_digitChar hm]
        · intro c hc
          rw [haux] at hc
          simp only [List.nil_append, List.mem_singleton] at hc
          subst hc
          exact digitChar_isDigit (by omega)
      · have hqle : (m + 1) / 10 ≤ fuel := by
          have := Nat.div_lt_self (by omega : 0 < m + 1) (by omega : 1 < 10)
          omega
        obtain ⟨hv, hd, hne⟩ := ih ((m + 1) / 10) hq hqle
        refine ⟨?_, ?_, by simp⟩
        · rw [charsVal_append_singleton, hv]
          have hmod : (m + 1) % 10 < 10 := Nat.mod_lt _ (by omega)
          rw [chVal_digitChar hmod]
          omega
        · intro c hc
          rcases List.mem_append.mp hc with h | h
          · exact hd c h
          · simp only [List.mem_singleton] at h
            subst h
            exact digitChar_isDigit (Nat.mod_lt _ (by omega))

theorem charsVal_natToChars (n : Nat) : charsVal (natToChars n) = n := by
  unfold natToChars
  split
  · subst n; decide
  · exact (natToCharsAux_spec n n (by omega) le_rfl).1

theorem natToChars_isDigit (n : Nat) :
    ∀ c ∈ natToChars n, c.isDigit = true := by
  unfold natToChars
  split
  · intro c hc
    simp only [List.mem_singleton] at hc
    subst hc; decide
  · exact (natToCharsAux_spec n n (by omega) le_rfl).2.1

theorem natToChars_ne_nil (n : Nat) : natToChars n ≠ [] := by
  unfold natToChars
  split
  · simp
  · exact (natToCharsAux_spec n n (by omega) le_rfl).2.2

theorem headND_nil : headND [] := by simp [headND]

theorem headND_cons {c : Char} {s : GoStr} (h : c.isDigit = false) :
    headND (c :: s) := by simp [headND, h]

/-- Scanning from any state behaves like scanning from `outside` once the
next character is a non-digit; pending digits flush first. -/
theorem scanAux_flush {u : GoStr} (hu : headND u) (st : ScanSt) :
    scanAux u st =
      (match st with | .num n => [n] | _ => ([] : List Nat)) ++
        scanPH u := by
  cases u with
  | nil => cases st <;> rfl
  | cons c cs =>
      have hc : c.isDigit = false := hu c (by simp)
      cases st with
      | outside => rfl
      | afterDollar =>
          show (if c.isDigit then scanAux cs (.num (chVal c))
            else if c = '$' then scanAux cs .afterDollar
            else scanAux cs .outside) = _
          rw [hc]
          simp only [Bool.false_eq_true, if_false, List.nil_append]
          rfl
      | num n =>
          show (if c.isDigit then scanAux cs (.num (10 * n + chVal c))
            else n :: (if c = '$' then scanAux cs .afterDollar
              else scanAux cs .outside)) = _
          rw [hc]
          simp only [Bool.false_eq_true, if_false, List.singleton_append]
          rfl

theorem scanAux_cons_outside (c : Char) (cs : List Char) :
    scanAux (c :: cs) .outside =
      if c = '$' then scanAux cs .afterDollar else scanAux cs .outside := rfl

theorem scanAux_cons_afterDollar (c : Char) (cs : List Char) :
    scanAux (c :: cs) .afterDollar =
      if c.isDigit then scanAux cs (.num (chVal c))
      else if c = '$' then scanAux cs .afterDollar
      else scanAux cs .outside := rfl

theorem scanAux_cons_num (c : Char) (cs : List Char) (n : Nat) :
    scanAux (c :: cs) (.num n) =
      if c.isDigit then scanAux cs (.num (10 * n + chVal c))
      else n :: (if c = '$' then scanAux cs .afterDollar
        else scanAux cs .outside) := rfl

/-- Concatenation splits the scan as long as the right part does not start
with a digit (so no placeholder token straddles the boundary). -/
theorem scanAux_append (a b : GoStr) (hb : headND b)
    (st : ScanSt) :
    scanAux (a ++ b) st = scanAux a st ++ scanPH b := by
  induction a generalizing st with
  | nil =>
      rw [List.nil_append, scanAux_flush hb st]
      cases st <;> rfl
  | cons c cs ih =>
      cases st with
      | outside =>
          rw [List.cons_append, scanAux_cons_outside, scanAux_cons_outside]
          by_cases h : c = '$'
          · rw [if_pos h, if_pos h, ih]
          · rw [if_neg h, if_neg h, ih]
      | afterDollar =>
          rw [List.cons_append, scanAux_cons_afterDollar,
            scanAux_cons_afterDollar]
          by_cases hd : c.isDigit
          · rw [if_pos hd, if_pos hd, ih]
          · rw [if_neg hd, if_neg hd]
            by_cases h : c = '$'
            · rw [if_pos h, if_pos h, ih]
            · rw [if_neg h, if_neg h, ih]
      | num n =>
          rw [List.cons_append, scanAux_cons_num, scanAux_cons_num]
          by_cases hd : c.isDigit
          · rw [if_pos hd, if_pos hd, ih]
          · rw [if_neg hd, if_neg hd]
            by_cases h : c = '$'
            · rw [if_pos h, if_pos h, List.cons_append, ih]
            · rw [if_neg h, if_neg h, List.cons_append, ih]

theorem scanPH_append (a b : GoStr) (hb : headND b) :
    scanPH (a ++ b) = scanPH a ++ scanPH b :=
  scanAux_append a b hb .outside

/-- A `$`-free prefix contributes nothing to the scan. -/
theorem scanAux_noDollar {p : GoStr} (hp : '$' ∉ p) (u : GoStr) :
    scanAux (p ++ u) .outside = scanAux u .outside := by
  induction p with
  | nil => rfl
  | cons c cs ih =>
      have hc : ¬ c = '$' := fun h => hp (h ▸ List.mem_cons_self c cs)
      show (if c = '$' then scanAux (cs ++ u) .afterDollar
        else scanAux (cs ++ u) .outside) = _
      rw [if_neg hc]
      exact ih fun h => hp (List.mem_cons_of_mem _ h)

theorem scanPH_noDollar {p : GoStr} (hp : '$' ∉ p) : scanPH p = [] := by
  have := scanAux_noDollar hp []
  simpa [scanPH] using this

/-- Scanning a digit run accumulates its decimal value. -/
theorem scanAux_digits {ds : GoStr} (hd : ∀ c ∈ ds, c.isDigit = true)
    (u : GoStr) (m : Nat) :
    scanAux (ds ++ u) (.num m) =
      scanAux u (.num (ds.foldl (fun a c => 10 * a + chVal c) m)) := by
  induction ds generalizing m with
  | nil => rfl
  | cons c cs ih =>
      have hc : c.isDigit = true := hd c (by simp)
      show (if c.isDigit then scanAux (cs ++ u) (.num (10 * m + chVal c))
        else _) = _
      rw [hc, if_pos rfl]
      rw [ih fun x hx => hd x (List.mem_cons_of_mem _ hx)]
      rfl

/-- Scanning `$<digits of n>` followed by a non-digit yields exactly `n`. -/
theorem scanAux_dollar_nat (n : Nat) (u : GoStr) (hu : headND u) :
    scanAux (('$' :: natToChars n) ++ u) .outside = n :: scanPH u := by
  show scanAux ('$' :: (natToChars n ++ u)) .outside = _
  have h1 : scanAux ('$' :: (natToChars n ++ u)) .outside =
      scanAux (natToChars n ++ u) .afterDollar := by
    simp [scanAux]
  rw [h1]
  obtain ⟨d, ds, hds⟩ : ∃ d ds, natToChars n = d :: ds := by
    cases h : natToChars n with
    | nil => exact absurd h (natToChars_ne_nil n)
    | cons d ds => exact ⟨d, ds, rfl⟩
  have hdig := natToChars_isDigit n
  rw [hds] at hdig ⊢
  have hd : d.isDigit = true := hdig d (by simp)
  show scanAux (d :: (ds ++ u)) .afterDollar = _
  have h2 : scanAux (d :: (ds ++ u)) .afterDollar =
      scanAux (ds ++ u) (.num (chVal d)) := by
    simp [scanAux, hd]
  rw [h2, scanAux_digits (fun c hc => hdig c (List.mem_cons_of_mem _ hc)) u]
  have hval : ds.foldl (fun a c => 10 * a + chVal c) (chVal d) = n := by
    have : charsVal (d :: ds) = n := by rw [← hds]; exact charsVal_natToChars n
    simpa [charsVal] using this
  rw [hval, scanAux_flush hu]
  rfl

theorem noDollar_iff {s : GoStr} : noDollar s = true ↔ '$' ∉ s := by
  simp [noDollar, List.contains]

theorem countQ_nil : countQ [] = 0 := rfl

theorem countQ_cons_self (cs : GoStr) : countQ ('?' :: cs) = countQ cs + 1 := by
  simp [countQ, List.count_cons]

theorem countQ_cons_ne {c : Char} (cs : GoStr) (h : ¬ c = '?') :
    countQ (c :: cs) = countQ cs := by
  simp [countQ, List.count_cons, h]

theorem headND_replacePH {cs : GoStr}
    (h : ∀ c ∈ cs.head?, c = '?' ∨ c.isDigit = false) (m : Nat) :
    headND (replacePH cs m) := by
  cases cs with
  | nil => exact headND_nil
  | cons c rest =>
      rcases h c (by simp) with hc | hc
      · subst hc
        show headND (if ('?' : Char) = '?' then _ else _)
        rw [if_pos rfl]
        exact headND_cons (by decide)
      · show headND (if c = '?' then _ else _)
        by_cases hq : c = '?'
        · rw [if_pos hq]; exact headND_cons (by decide)
        · rw [if_neg hq]; exact headND_cons hc

/-- The single pass of `ReplacePlaceholders` turns the `k` anonymous markers of a
well-formed template into exactly the placeholder numbers
`n, n+1, …, n+k-1`, in left-to-right order. -/
theorem scanPH_replacePH :
    ∀ (t : GoStr), '$' ∉ t → noQD t = true → ∀ n,
      scanPH (replacePH t n) = List.range' n (countQ t) := by
  intro t
  induction t with
  | nil => intro _ _ n; simp [replacePH, scanPH, scanAux, countQ]
  | cons c cs ih =>
      intro hds hqd n
      have hds' : '$' ∉ cs := fun h => hds (List.mem_cons_of_mem _ h)
      have hqd' : noQD cs = true := by
        cases cs with
        | nil => rfl
        | cons d rest =>
            have h0 : (!(c == '?' && d.isDigit) && noQD (d :: rest)) =
              true := hqd
            exact ((Bool.and_eq_true _ _).mp h0).2
      by_cases hq : c = '?'
      · subst hq
        have hstep : replacePH ('?' :: cs) n =
            ('$' :: natToChars n) ++ replacePH cs (n + 1) := by
          show (if ('?' : Char) = '?' then
            '$' :: natToChars n ++ replacePH cs (n + 1) else _) = _
          rw [if_pos rfl]
        rw [hstep]
        have hhead : ∀ c ∈ cs.head?, c = '?' ∨ c.isDigit = false := by
          cases cs with
          | nil => intro d hd; simp at hd
          | cons d0 rest =>
              intro d hd
              have hdd : d0 = d := by simpa using hd
              subst hdd
              refine Or.inr ?_
              have h0 : (!(('?' : Char) == '?' && d0.isDigit) &&
                  noQD (d0 :: rest)) = true := hqd
              have h1 := ((Bool.and_eq_true _ _).mp h0).1
              simpa using h1
        rw [scanPH, scanAux_dollar_nat n _ (headND_replacePH hhead (n + 1))]
        rw [ih hds' hqd' (n + 1), countQ_cons_self]
        rfl
      · have hstep : replacePH (c :: cs) n = c :: replacePH cs n := by
          show (if c = '?' then _ else c :: replacePH cs n) = _
          rw [if_neg hq]
        rw [hstep]
        have hc : ¬ c = '$' := fun h => hds (h ▸ List.mem_cons_self c cs)
        rw [scanPH, scanAux_cons_outside, if_neg hc, ← scanPH]
        rw [ih hds' hqd' n, countQ_cons_ne cs hq]

theorem joinSep_snoc (sep : GoStr) (cs : List GoStr) (c : GoStr) :
    joinSep sep (cs ++ [c]) =
      if cs = [] then c else joinSep sep cs ++ sep ++ c := by
  induction cs with
  | nil => rfl
  | cons x xs ih =>
      rw [if_neg (by simp)]
      cases xs with
      | nil => rfl
      | cons y rest =>
          have h1 : joinSep sep ((x :: y :: rest) ++ [c]) =
              x ++ sep ++ joinSep sep ((y :: rest) ++ [c]) := rfl
          have h2 : joinSep sep (x :: y :: rest) =
              x ++ sep ++ joinSep sep (y :: rest) := rfl
          rw [h1, h2, ih, if_neg (by simp)]
          simp [List.append_assoc]

theorem headND_of_head_eq {s : GoStr} {a : Char} (h : s.head? = some a)
    (ha : a.isDigit = false) : headND s := by
  intro c hc
  rw [h] at hc
  have hca : a = c := by simpa using hc
  subst hca
  exact ha

theorem headND_append_left (sep x : GoStr) (hne : sep ≠ [])
    (h : headND sep) : headND (sep ++ x) := by
  cases sep with
  | nil => exact absurd rfl hne
  | cons a rest =>
      exact headND_cons (h a (by simp))

/-- Appending one fragment to an ` AND `-joined list appends its scan. -/
theorem scanPH_joinAND_snoc (cs : List GoStr) (c : GoStr) :
    scanPH (joinSep (str " AND ") (cs ++ [c])) =
      scanPH (joinSep (str " AND ") cs) ++ scanPH c := by
  rw [joinSep_snoc]
  by_cases h : cs = []
  · rw [if_pos h, h]
    rfl
  · rw [if_neg h, List.append_assoc]
    have hb : headND (str " AND " ++ c) :=
      headND_append_left (str " AND ") c (by decide)
        (headND_of_head_eq rfl (by decide))
    rw [scanPH, scanAux_append (joinSep (str " AND ") cs)
      (str " AND " ++ c) hb .outside]
    have h2 : scanPH (str " AND " ++ c) = scanPH c :=
      scanAux_noDollar (by decide) c
    rw [h2]
    rfl

/-- Scanning a comma-joined list of `$i` tokens yields exactly the indices. -/
theorem scanPH_joinCS_toks :
    ∀ l : List Nat,
      scanPH (joinSep (str ", ") (l.map fun i => '$' :: natToChars i)) = l := by
  intro l
  induction l with
  | nil => rfl
  | cons x xs ih =>
      cases xs with
      | nil =>
          show scanPH ('$' :: natToChars x) = [x]
          have h0 : ('$' :: natToChars x : GoStr) =
              ('$' :: natToChars x) ++ [] := by simp
          rw [h0, scanPH, scanAux_dollar_nat x [] headND_nil]
          rfl
      | cons y rest =>
          have h1 : joinSep (str ", ")
              (((x :: y :: rest).map fun i => '$' :: natToChars i)) =
              ('$' :: natToChars x) ++ (str ", " ++ joinSep (str ", ")
                ((y :: rest).map fun i => '$' :: natToChars i)) := by
            show ('$' :: natToChars x) ++ str ", " ++ _ = _
            simp [List.append_assoc]
          rw [h1, scanPH, scanAux_dollar_nat x
            (str ", " ++ joinSep (str ", ")
              ((y :: rest).map fun i => '$' :: natToChars i))
            (headND_append_left (str ", ") _ (by decide)
              (headND_of_head_eq rfl (by decide)))]
          have h2 : scanPH (str ", " ++ joinSep (str ", ")
              ((y :: rest).map fun i => '$' :: natToChars i)) =
              scanPH (joinSep (str ", ")
                ((y :: rest).map fun i => '$' :: natToChars i)) :=
            scanAux_noDollar (by decide) _
          rw [h2, ih]

/-- For the positional-numbered dialect, `GeneratePlaceholders` emits exactly
the numbers `start, …, start+count-1`, in order. -/
theorem scanPH_GeneratePlaceholders (start count : Nat) :
    scanPH (GeneratePlaceholders .postgres start count) =
      List.range' start count := by
  unfold GeneratePlaceholders
  have h1 : ((List.range count).map fun i => phTok .postgres (start + i)) =
      (List.range' start count).map fun i => '$' :: natToChars i := by
    rw [List.range'_eq_map_range, List.map_map]
    rfl
  rw [h1, scanPH_joinCS_toks]

theorem splitCommaSpace_cons_ne {c : Char} (rest : List Char)
    (h : ¬ c = ',') :
    splitCommaSpace (c :: rest) = splitConsHead c (splitCommaSpace rest) := by
  rw [splitCommaSpace.eq_def]
  split
  · simp_all
  · simp_all
  · rename_i heq
    injection heq with h1 h2
    subst h1
    subst h2
    rfl

theorem splitCommaSpace_comma (rest : List Char) :
    splitCommaSpace (',' :: ' ' :: rest) = [] :: splitCommaSpace rest := rfl

/-- Splitting a comma-free string returns it whole. -/
theorem splitCommaSpace_no_comma {b : GoStr} (h : ',' ∉ b) :
    splitCommaSpace b = [b] := by
  induction b with
  | nil => rfl
  | cons c rest ih =>
      have hc : ¬ c = ',' := fun hc => h (hc ▸ List.mem_cons_self c rest)
      rw [splitCommaSpace_cons_ne rest hc,
        ih fun hm => h (List.mem_cons_of_mem _ hm)]
      rfl

/-- Splitting around one separator occurrence, with a comma-free left part. -/
theorem splitCommaSpace_append {a : GoStr} (b : GoStr) (h : ',' ∉ a) :
    splitCommaSpace (a ++ ',' :: ' ' :: b) = a :: splitCommaSpace b := by
  induction a with
  | nil => rfl
  | cons c rest ih =>
      have hc : ¬ c = ',' := fun hc => h (hc ▸ List.mem_cons_self c rest)
      rw [List.cons_append, splitCommaSpace_cons_ne _ hc,
        ih fun hm => h (List.mem_cons_of_mem _ hm)]
      rfl

/-- A placeholder token never contains a comma. -/
theorem phTok_no_comma (dbType : DBType) (i : Nat) : ',' ∉ phTok dbType i := by
  unfold phTok
  intro hm
  cases dbType with
  | postgres =>
      rcases List.mem_cons.mp hm with h | h
      · exact absurd h (by decide)
      · have := natToChars_isDigit i ',' h
        simp [Char.isDigit] at this
  | mariadb => simp at hm
  | mysql => simp at hm
  | sqlite3 => simp at hm
  | other s => simp at hm

/-- Any non-empty identifier passes `EscapeIdentifier` unchanged. -/
theorem EscapeIdentifier_ok (dbType : DBType) {name : GoStr}
    (h : name ≠ []) : EscapeIdentifier dbType name = .ok name := by
  unfold EscapeIdentifier
  by_cases hs : name = ['*']
  · rw [if_pos hs]
  · rw [if_neg hs, if_neg h]

theorem GeneratePlaceholders_two (dbType : DBType) (s : Nat) :
    GeneratePlaceholders dbType s 2 =
      phTok dbType s ++ ',' :: ' ' :: phTok dbType (s + 1) := by
  show joinSep (str ", ") ((List.range 2).map fun i => phTok dbType (s + i))
    = _
  have h2 : List.range 2 = [0, 1] := rfl
  rw [h2]
  show phTok dbType (s + 0) ++ str ", " ++ phTok dbType (s + 1) = _
  rw [Nat.add_zero, List.append_assoc]
  rfl

/-- The two tokens generated for a BETWEEN always split back into exactly
two parts, so the internal-error branch of `WhereBetween` is unreachable. -/
theorem splitCommaSpace_GeneratePlaceholders_two (dbType : DBType) (s : Nat) :
    splitCommaSpace (GeneratePlaceholders dbType s 2) =
      [phTok dbType s, phTok dbType (s + 1)] := by
  rw [GeneratePlaceholders_two,
    splitCommaSpace_append _ (phTok_no_comma dbType s),
    splitCommaSpace_no_comma (phTok_no_comma dbType (s + 1))]

/-- C8: for every dialect, every open builder and every non-empty column,
`WhereBetween` keeps the builder open, appends exactly one
`col BETWEEN p1 AND p2` condition built from exactly two placeholder
tokens, and appends exactly the two arguments `start, finish`; the
`InternalPlaceholderError` branch is never taken under these
preconditions. -/
theorem whereBetween_two_placeholders (qb : QueryBuilder) (column : GoStr)
    (start finish : GoVal) (herr : qb.err = none) (hcol : column ≠ []) :
    (qb.WhereBetween column start finish).err = none ∧
    (qb.WhereBetween column start finish).conditions =
      qb.conditions ++
        [column ++ str " BETWEEN " ++ phTok qb.dbType (qb.args.length + 1) ++
          str " AND " ++ phTok qb.dbType (qb.args.length + 2)] ∧
    (qb.WhereBetween column start finish).args =
      qb.args ++ [start, finish] := by
  have hsome : qb.err.isSome = false := by rw [herr]; rfl
  unfold QueryBuilder.WhereBetween
  rw [hsome]
  simp only [Bool.false_eq_true, if_false]
  rw [EscapeIdentifier_ok qb.dbType hcol]
  simp only
  rw [splitCommaSpace_GeneratePlaceholders_two]
  simp only [List.length_cons, List.length_singleton]
  rw [if_neg (by simp)]
  refine ⟨herr, ?_, rfl⟩
  simp [List.headI, List.tail, List.append_assoc]

/-- C8 witness: a concrete BETWEEN on an open PostgreSQL builder. -/
theorem whereBetween_two_placeholders_witness :
    (BuildSelect .postgres (str "t") []).err = none ∧
    ((BuildSelect .postgres (str "t") []).WhereBetween (str "age")
      (GoVal.vInt 1) (GoVal.vInt 9)).conditions =
      [str "age BETWEEN $1 AND $2"] ∧
    ((BuildSelect .postgres (str "t") []).WhereBetween (str "age")
      (GoVal.vInt 1) (GoVal.vInt 9)).args = [GoVal.vInt 1, GoVal.vInt 9] :=
  ⟨by decide,
   (whereBetween_two_placeholders (BuildSelect .postgres (str "t") [])
      (str "age") (GoVal.vInt 1) (GoVal.vInt 9) (by decide)
      (by decide)).2.1.trans (by decide),
   (whereBetween_two_placeholders (BuildSelect .postgres (str "t") [])
      (str "age") (GoVal.vInt 1) (GoVal.vInt 9) (by decide)
      (by decide)).2.2.trans (by decide)⟩

theorem Where_open (qb : QueryBuilder) (condition : GoStr)
    (args : List GoVal) (herr : qb.err = none) (hcond : condition ≠ []) :
    qb.Where condition args =
      { qb with
        conditions := qb.conditions ++
          [ReplacePlaceholders qb.dbType condition (qb.args.length + 1)]
        args := qb.args ++ args } := by
  unfold QueryBuilder.Where
  rw [show qb.err.isSome = false from by rw [herr]; rfl]
  simp [hcond]

theorem Where_open_empty (qb : QueryBuilder) (args : List GoVal)
    (herr : qb.err = none) :
    qb.Where [] args = { qb with err := some .emptyCondition } := by
  unfold QueryBuilder.Where
  rw [show qb.err.isSome = false from by rw [herr]; rfl]
  simp

theorem Having_open (qb : QueryBuilder) (condition : GoStr)
    (args : List GoVal) (herr : qb.err = none) :
    qb.Having condition args =
      { qb with
        having := qb.having ++
          [ReplacePlaceholders qb.dbType condition (qb.args.length + 1)]
        args := qb.args ++ args } := by
  unfold QueryBuilder.Having
  rw [show qb.err.isSome = false from by rw [herr]; rfl]
  simp

theorem OrWhere_open_nil (qb : QueryBuilder) (condition : GoStr)
    (args : List GoVal) (herr : qb.err = none) (hcond : condition ≠ [])
    (hc : qb.conditions = []) :
    qb.OrWhere condition args = qb.Where condition args := by
  unfold QueryBuilder.OrWhere QueryBuilder.Where
  rw [show qb.err.isSome = false from by rw [herr]; rfl]
  simp only [Bool.false_eq_true, if_false, if_neg hcond]
  rw [dif_neg (by simp [hc])]

theorem OrWhere_open_snoc (qb : QueryBuilder) (condition : GoStr)
    (args : List GoVal) (herr : qb.err = none) (hcond : condition ≠ [])
    (init : List GoStr) (last : GoStr) (hc : qb.conditions = init ++ [last]) :
    qb.OrWhere condition args =
      { qb with
        conditions := init ++ [['('] ++ last ++ str " OR " ++
          ReplacePlaceholders qb.dbType condition (qb.args.length + 1) ++
            [')']]
        args := qb.args ++ args } := by
  have hne : qb.conditions ≠ [] := by simp [hc]
  unfold QueryBuilder.OrWhere
  rw [show qb.err.isSome = false from by rw [herr]; rfl]
  simp only [Bool.false_eq_true, if_false, if_neg hcond]
  rw [dif_pos hne]
  have hdl : qb.conditions.dropLast = init := by
    rw [hc]
    exact List.dropLast_concat
  have hgl : qb.conditions.getLast hne = last := by
    have h1 : qb.conditions.getLast? = some last := by
      rw [hc]
      exact List.getLast?_concat _
    have h2 : qb.conditions.getLast? = some (qb.conditions.getLast hne) :=
      List.getLast?_eq_getLast _ hne
    rw [h1] at h2
    exact (Option.some_inj.mp h2).symm
  rw [hdl, hgl]

/-- C7: on an open builder with a non-empty template, `OrWhere` appends its
arguments after the existing ones and either wraps the most recent condition
fragment `P` into `(P OR <rewritten>)`, or, when no condition exists yet,
behaves exactly like `Where`. -/
theorem orWhere_wraps_last_condition (qb : QueryBuilder) (condition : GoStr)
    (args : List GoVal) (herr : qb.err = none) (hcond : condition ≠ []) :
    (qb.OrWhere condition args).err = none ∧
    (qb.OrWhere condition args).args = qb.args ++ args ∧
    (qb.conditions = [] →
      qb.OrWhere condition args = qb.Where condition args) ∧
    (∀ init last, qb.conditions = init ++ [last] →
      (qb.OrWhere condition args).conditions =
        init ++ [['('] ++ last ++ str " OR " ++
          ReplacePlaceholders qb.dbType condition (qb.args.length + 1) ++
            [')']]) := by
  refine ⟨?_, ?_, ?_, ?_⟩
  · rcases hc : qb.conditions with _ | ⟨c0, cs⟩
    · rw [OrWhere_open_nil qb condition args herr hcond hc,
        Where_open qb condition args herr hcond]
      exact herr
    · obtain ⟨init, last, hil⟩ : ∃ i l, qb.conditions = i ++ [l] := by
        rw [hc]
        exact ⟨(c0 :: cs).dropLast, (c0 :: cs).getLast (by simp), by
          simpa using (List.dropLast_append_getLast (l := c0 :: cs)
            (by simp)).symm⟩
      rw [OrWhere_open_snoc qb condition args herr hcond init last hil]
      exact herr
  · rcases hc : qb.conditions with _ | ⟨c0, cs⟩
    · rw [OrWhere_open_nil qb condition args herr hcond hc,
        Where_open qb condition args herr hcond]
    · obtain ⟨init, last, hil⟩ : ∃ i l, qb.conditions = i ++ [l] := by
        rw [hc]
        exact ⟨(c0 :: cs).dropLast, (c0 :: cs).getLast (by simp), by
          simpa using (List.dropLast_append_getLast (l := c0 :: cs)
            (by simp)).symm⟩
      rw [OrWhere_open_snoc qb condition args herr hcond init last hil]
  · intro hc
    exact OrWhere_open_nil qb condition args herr hcond hc
  · intro init last hil
    rw [OrWhere_open_snoc qb condition args herr hcond init last hil]

/-- C7 witness: the spec example `Where("age > ?", 18).OrWhere("vip = ?",
true)` yields the WHERE fragment `(age > $1 OR vip = $2)` with both
arguments present in order. -/
theorem orWhere_wraps_last_condition_witness :
    QueryBuilder.conditions
      (((BuildSelect .postgres (str "users") []).Where (str "age > ?")
        [GoVal.vInt 18]).OrWhere (str "vip = ?") [GoVal.vBool true]) =
      [str "(age > $1 OR vip = $2)"] ∧
    QueryBuilder.args
      (((BuildSelect .postgres (str "users") []).Where (str "age > ?")
        [GoVal.vInt 18]).OrWhere (str "vip = ?") [GoVal.vBool true]) =
      [GoVal.vInt 18, GoVal.vBool true] :=
  ⟨((orWhere_wraps_last_condition
      ((BuildSelect .postgres (str "users") []).Where (str "age > ?")
        [GoVal.vInt 18]) (str "vip = ?") [GoVal.vBool true] (by decide)
      (by decide)).2.2.2 [] (str "age > $1") (by decide)).trans (by decide),
   (orWhere_wraps_last_condition
      ((BuildSelect .postgres (str "users") []).Where (str "age > ?")
        [GoVal.vInt 18]) (str "vip = ?") [GoVal.vBool true] (by decide)
      (by decide)).2.1.trans (by decide)⟩

/-- C2 counterexample: `Having` with an empty template on an open builder
does *not* record the `EmptyCondition` error — it stays open and appends
the (empty) fragment, contrary to the claim that it fails like `Where`. -/
theorem having_empty_template_counterexample :
    QueryBuilder.err ((BuildSelect .postgres (str "users") []).Having [] [])
      = none ∧
    QueryBuilder.having
      ((BuildSelect .postgres (str "users") []).Having [] []) =
      [([] : GoStr)] := by decide

/-- C2 amended: on an open builder `Having` performs no empty-template
check — for *every* template (the empty one included) it stays open and
appends the rewritten fragment and exactly the supplied arguments; only
`Where` rejects the empty template with the `EmptyCondition` error, and for
non-empty templates `Where` likewise appends the rewritten fragment and
exactly the supplied arguments. -/
theorem having_no_empty_check (qb : QueryBuilder) (condition : GoStr)
    (args : List GoVal) (herr : qb.err = none) :
    (qb.Having condition args).err = none ∧
    (qb.Having condition args).having = qb.having ++
      [ReplacePlaceholders qb.dbType condition (qb.args.length + 1)] ∧
    (qb.Having condition args).args = qb.args ++ args ∧
    (qb.Where [] args).err = some .emptyCondition ∧
    (condition ≠ [] →
      (qb.Where condition args).err = none ∧
      (qb.Where condition args).conditions = qb.conditions ++
        [ReplacePlaceholders qb.dbType condition (qb.args.length + 1)] ∧
      (qb.Where condition args).args = qb.args ++ args) := by
  rw [Having_open qb condition args herr, Where_open_empty qb args herr]
  refine ⟨herr, rfl, rfl, rfl, ?_⟩
  intro hcond
  rw [Where_open qb condition args herr hcond]
  exact ⟨herr, rfl, rfl⟩

/-- C2 witness: a concrete `Having` append and the `Where` empty-template
rejection on an open PostgreSQL builder. -/
theorem having_no_empty_check_witness :
    QueryBuilder.having
      ((BuildSelect .postgres (str "t") []).Having (str "c > ?")
        [GoVal.vInt 5]) = [str "c > $1"] ∧
    QueryBuilder.err
      ((BuildSelect .postgres (str "t") []).Where [] [GoVal.vInt 5]) =
      some .emptyCondition :=
  ⟨(having_no_empty_check (BuildSelect .postgres (str "t") [])
      (str "c > ?") [GoVal.vInt 5] (by decide)).2.1.trans (by decide),
   (having_no_empty_check (BuildSelect .postgres (str "t") [])
      (str "c > ?") [GoVal.vInt 5] (by decide)).2.2.2.1⟩

/-- C10: neither `Where` nor `Having` compares the number of anonymous
markers with the number of supplied arguments: on an open builder, for any
non-empty template and *any* argument list, both succeed, append exactly the
supplied arguments, and rewrite exactly the markers present in the template
(for the positional-numbered dialect the appended fragment carries the
numbers `len(args)+1 … len(args)+k` for its `k` markers) — no hypothesis
links `k` to the argument count, so a mismatch silently breaks the
placeholder/argument correspondence. -/
theorem where_having_no_arity_check (qb : QueryBuilder) (condition : GoStr)
    (args : List GoVal) (herr : qb.err = none) (hcond : condition ≠ []) :
    (qb.Where condition args).err = none ∧
    (qb.Where condition args).args = qb.args ++ args ∧
    (qb.Where condition args).conditions = qb.conditions ++
      [ReplacePlaceholders qb.dbType condition (qb.args.length + 1)] ∧
    (qb.Having condition args).err = none ∧
    (qb.Having condition args).args = qb.args ++ args ∧
    (qb.Having condition args).having = qb.having ++
      [ReplacePlaceholders qb.dbType condition (qb.args.length + 1)] ∧
    (qb.dbType = .postgres → '$' ∉ condition → noQD condition = true →
      scanPH (ReplacePlaceholders qb.dbType condition (qb.args.length + 1)) =
        List.range' (qb.args.length + 1) (countQ condition)) := by
  rw [Where_open qb condition args herr hcond,
    Having_open qb condition args herr]
  refine ⟨herr, rfl, rfl, herr, rfl, rfl, ?_⟩
  intro hdb hds hqd
  rw [hdb]
  exact scanPH_replacePH condition hds hqd (qb.args.length + 1)

/-- C10 witness: two markers but only one argument — the call still
succeeds, appends the single argument, and numbers both markers. -/
theorem where_having_no_arity_check_witness :
    QueryBuilder.err
      ((BuildSelect .postgres (str "t") []).Where (str "a = ? AND b = ?")
        [GoVal.vInt 1]) = none ∧
    QueryBuilder.args
      ((BuildSelect .postgres (str "t") []).Where (str "a = ? AND b = ?")
        [GoVal.vInt 1]) = [GoVal.vInt 1] ∧
    QueryBuilder.conditions
      ((BuildSelect .postgres (str "t") []).Where (str "a = ? AND b = ?")
        [GoVal.vInt 1]) = [str "a = $1 AND b = $2"] :=
  ⟨(where_having_no_arity_check (BuildSelect .postgres (str "t") [])
      (str "a = ? AND b = ?") [GoVal.vInt 1] (by decide) (by decide)).1,
   (where_having_no_arity_check (BuildSelect .postgres (str "t") [])
      (str "a = ? AND b = ?") [GoVal.vInt 1] (by decide)
      (by decide)).2.1.trans (by decide),
   (where_having_no_arity_check (BuildSelect .postgres (str "t") [])
      (str "a = ? AND b = ?") [GoVal.vInt 1] (by decide)
      (by decide)).2.2.1.trans (by decide)⟩

/-- C9 counterexample: with a non-null allowed map that contains the empty
string as a key, `OrderBy` of the empty column *does* record an error
(`EscapeIdentifier` rejects the empty identifier), contrary to the claim
that it never errors for any column when `allowedColumns` is non-null. -/
theorem orderBy_error_counterexample :
    QueryBuilder.err
      ((BuildSelect .postgres (str "t") []).OrderBy [] (str "ASC")
        (some [([], true)])) = some .emptyIdentifier := by decide

/-- C9 amended: on an open builder with a non-null allowed map, `OrderBy`
records no error *except* in the one corner case where the column is the
empty string and the map contains the empty string as a key; a column absent
from the map is silently replaced by the literal `"id"`, and the stored
fragment is `col DIR` with `DIR` given by `ValidateDirection` — `ASC` or
`DESC`, defaulting to `ASC` for any other (case-insensitive) input. -/
theorem orderBy_fallback_and_direction (qb : QueryBuilder)
    (column direction : GoStr) (allowed : List (GoStr × Bool))
    (herr : qb.err = none)
    (hne : ¬ (column = [] ∧ mapContains allowed column = true)) :
    (qb.OrderBy column direction (some allowed)).err = none ∧
    (qb.OrderBy column direction (some allowed)).orderBy =
      (if mapContains allowed column then column else str "id") ++
        [' '] ++ ValidateDirection direction ∧
    (ValidateDirection direction = str "ASC" ∨
      ValidateDirection direction = str "DESC") ∧
    (toUpperStr direction ≠ str "ASC" → toUpperStr direction ≠ str "DESC" →
      ValidateDirection direction = str "ASC") := by
  have hsome : qb.err.isSome = false := by rw [herr]; rfl
  have hused : (if mapContains allowed column then column
      else str "id") ≠ [] := by
    by_cases hm : mapContains allowed column
    · rw [if_pos hm]
      intro hcol
      exact hne ⟨hcol, hm⟩
    · rw [if_neg hm]
      decide
  have hdir : ValidateDirection direction = str "ASC" ∨
      ValidateDirection direction = str "DESC" := by
    unfold ValidateDirection
    by_cases h : toUpperStr direction = str "ASC" ∨
        toUpperStr direction = str "DESC"
    · rw [if_pos h]
      exact h
    · rw [if_neg h]
      exact Or.inl rfl
  refine ⟨?_, ?_, hdir, ?_⟩
  · unfold QueryBuilder.OrderBy
    rw [hsome]
    simp only [Bool.false_eq_true, if_false]
    rw [EscapeIdentifier_ok qb.dbType hused]
    exact herr
  · unfold QueryBuilder.OrderBy
    rw [hsome]
    simp only [Bool.false_eq_true, if_false]
    rw [EscapeIdentifier_ok qb.dbType hused]
  · intro h1 h2
    unfold ValidateDirection
    rw [if_neg]
    simp [h1, h2]

/-- C9 witness: an open builder, a column missing from the allowed map, and
a junk direction — `OrderBy` stays open and stores `id ASC`. -/
theorem orderBy_fallback_and_direction_witness :
    QueryBuilder.err
      ((BuildSelect .postgres (str "t") []).OrderBy (str "evil")
        (str "junk") (some [(str "name", true)])) = none ∧
    QueryBuilder.orderBy
      ((BuildSelect .postgres (str "t") []).OrderBy (str "evil")
        (str "junk") (some [(str "name", true)])) = str "id ASC" :=
  ⟨(orderBy_fallback_and_direction (BuildSelect .postgres (str "t") [])
      (str "evil") (str "junk") [(str "name", true)] (by decide)
      (by decide)).1,
   (orderBy_fallback_and_direction (BuildSelect .postgres (str "t") [])
      (str "evil") (str "junk") [(str "name", true)] (by decide)
      (by decide)).2.1.trans (by decide)⟩

/-- C1: the code violates the first-error/no-op guarantee.  After `Where("")`
records `EmptyCondition` on a SELECT builder, the unguarded `Returning`
*overwrites* the stored error with its wrong-operation error, and `Build()`
then returns that later error, not the first; the equally unguarded
`Subquery` appends the inner query's arguments to a failed builder's
argument list.  This theorem evaluates the embedding on those failing
inputs. -/
theorem returning_subquery_break_error_freeze :
    QueryBuilder.err
      ((BuildSelect .postgres (str "users") []).Where [] []) =
      some .emptyCondition ∧
    QueryBuilder.err
      (((BuildSelect .postgres (str "users") []).Where [] []).Returning
        (str "id")) = some .returningRequiresInsert ∧
    QueryBuilder.Build
      (((BuildSelect .postgres (str "users") []).Where [] []).Returning
        (str "id")) [] = ([], none, some .returningRequiresInsert) ∧
    QueryBuilder.args
      (Prod.fst
        (QueryBuilder.Subquery
          ((BuildSelect .postgres (str "users") []).Where [] [])
          ((BuildSelect .postgres (str "u") []).Where (str "x = ?")
            [GoVal.vInt 9]) [] (str "s"))) = [GoVal.vInt 9] := by decide

theorem phTok_eq_ite (dbType : DBType) (i : Nat) :
    phTok dbType i =
      if dbType = .postgres then '$' :: natToChars i else ['?'] := by
  cases dbType <;> simp [phTok]

/-- The INSERT loop is one order-preserving pass: on an enumeration whose
columns are all non-empty it returns the columns, the placeholder tokens
numbered consecutively from `i`, and the values, each in the enumeration's
order. -/
theorem insertLoop_spec (dbType : DBType) :
    ∀ (iter : List (GoStr × GoVal)) (i : Nat),
      (∀ p ∈ iter, p.1 ≠ ([] : GoStr)) →
      insertLoop dbType iter i =
        .ok (iter.map Prod.fst,
          (List.range' i iter.length).map (phTok dbType),
          iter.map Prod.snd) := by
  intro iter
  induction iter with
  | nil => intro i _; rfl
  | cons p rest ih =>
      intro i hcols
      obtain ⟨col, val⟩ := p
      have hstep : insertLoop dbType ((col, val) :: rest) i =
          (match EscapeIdentifier dbType col with
          | .error e => .error e
          | .ok safeCol =>
              match insertLoop dbType rest (i + 1) with
              | .error e => .error e
              | .ok (cols, phs, args) =>
                  .ok (safeCol :: cols,
                    (if dbType = .postgres then '$' :: natToChars i
                     else ['?']) :: phs,
                    val :: args) :
            Except GoErr (List GoStr × List GoStr × List GoVal)) := rfl
      rw [hstep, EscapeIdentifier_ok dbType (hcols (col, val) (by simp))]
      simp only
      rw [ih (i + 1) fun q hq => hcols q (List.mem_cons_of_mem _ hq)]
      simp only [List.length_cons, List.range'_succ, List.map_cons,
        List.map_map]
      rw [phTok_eq_ite]

/-- C3 counterexample: the INSERT assembler's output depends on the order in
which the runtime enumerates the data map — two enumerations that are both
permutations of the same stored data (both legal for a Go map, whose
iteration order is unspecified and re-randomized per iteration) render
different SQL, so the output is neither tied to insertion order nor
deterministic across repeated `Build()` calls. -/
theorem buildInsert_order_counterexample :
    QueryBuilder.buildInsert
      ((BuildInsert .postgres (str "t")).Values
        [(str "a", GoVal.vInt 1), (str "b", GoVal.vInt 2)])
      [(str "a", GoVal.vInt 1), (str "b", GoVal.vInt 2)] ≠
    QueryBuilder.buildInsert
      ((BuildInsert .postgres (str "t")).Values
        [(str "a", GoVal.vInt 1), (str "b", GoVal.vInt 2)])
      [(str "b", GoVal.vInt 2), (str "a", GoVal.vInt 1)] ∧
    List.Perm [(str "b", GoVal.vInt 2), (str "a", GoVal.vInt 1)]
      [(str "a", GoVal.vInt 1), (str "b", GoVal.vInt 2)] := by decide

/-- C3 amended: for every non-empty data map and *whatever* enumeration
order the runtime presents, `buildInsert` makes one single order-preserving
pass: the rendered column list, placeholder list (numbered `1..n` for the
positional dialect, anonymous markers otherwise), and returned argument list
are the first projections, consecutive tokens, and second projections of the
same enumeration — the i-th column, i-th placeholder, and i-th argument come
from the i-th enumerated entry.  The enumeration order itself is
unspecified (Go map), so insertion order and cross-call determinism are not
guaranteed (see the counterexample). -/
theorem buildInsert_lock_step (qb : QueryBuilder)
    (entries iter : List (GoStr × GoVal)) (hdata : qb.data = some entries)
    (hiter : iter.Perm entries)
    (hcols : ∀ p ∈ iter, p.1 ≠ ([] : GoStr)) :
    qb.buildInsert iter =
      (str "INSERT INTO " ++ qb.table ++ str " (" ++
        joinSep (str ", ") (iter.map Prod.fst) ++ str ") VALUES (" ++
        joinSep (str ", ")
          ((List.range' 1 iter.length).map (phTok qb.dbType)) ++ [')'] ++
        (if qb.dbType = .postgres ∧ qb.returning ≠ [] then
          str " RETURNING " ++ qb.returning else []),
       some (iter.map Prod.snd), none) := by
  unfold QueryBuilder.buildInsert
  rw [hdata]
  simp only
  rw [insertLoop_spec qb.dbType iter 1 hcols]
  simp only
  by_cases hr : qb.dbType = .postgres ∧ qb.returning ≠ []
  · rw [if_pos hr, if_pos hr]
    simp [List.append_assoc]
  · rw [if_neg hr, if_neg hr]
    simp [List.append_assoc]

/-- C3 witness: a concrete two-column INSERT rendered from one enumeration
order, with columns, placeholders, and arguments in lock-step. -/
theorem buildInsert_lock_step_witness :
    QueryBuilder.buildInsert
      ((BuildInsert .postgres (str "t")).Values
        [(str "a", GoVal.vInt 1), (str "b", GoVal.vInt 2)])
      [(str "a", GoVal.vInt 1), (str "b", GoVal.vInt 2)] =
      (str "INSERT INTO t (a, b) VALUES ($1, $2)",
       some [GoVal.vInt 1, GoVal.vInt 2], none) :=
  (buildInsert_lock_step
    ((BuildInsert .postgres (str "t")).Values
      [(str "a", GoVal.vInt 1), (str "b", GoVal.vInt 2)])
    [(str "a", GoVal.vInt 1), (str "b", GoVal.vInt 2)]
    [(str "a", GoVal.vInt 1), (str "b", GoVal.vInt 2)]
    (by decide) (by decide) (by decide)).trans (by decide)

/-- The UPDATE loop renders exactly the spec-side assignments and the values
of the enumeration, in order. -/
theorem updateLoop_spec (dbType : DBType) :
    ∀ (iter : List (GoStr × GoVal)) (i : Nat),
      (∀ p ∈ iter, p.1 ≠ ([] : GoStr)) →
      updateLoop dbType iter i =
        .ok (specAssignments dbType i iter, iter.map Prod.snd) := by
  intro iter
  induction iter with
  | nil => intro i _; rfl
  | cons p rest ih =>
      intro i hcols
      obtain ⟨col, val⟩ := p
      have hstep : updateLoop dbType ((col, val) :: rest) i =
          (match EscapeIdentifier dbType col with
          | .error e => .error e
          | .ok safeCol =>
              match updateLoop dbType rest (i + 1) with
              | .error e => .error e
              | .ok (clauses, args) =>
                  .ok ((safeCol ++
                      (if dbType = .postgres then str " = $" ++ natToChars i
                       else str " = ?")) :: clauses,
                    val :: args) :
            Except GoErr (List GoStr × List GoVal)) := rfl
      rw [hstep, EscapeIdentifier_ok dbType (hcols (col, val) (by simp))]
      simp only
      rw [ih (i + 1) fun q hq => hcols q (List.mem_cons_of_mem _ hq)]
      have hasn : (col ++
          (if dbType = .postgres then str " = $" ++ natToChars i
           else str " = ?")) = col ++ str " = " ++ phTok dbType i := by
        rw [phTok_eq_ite]
        by_cases hp : dbType = .postgres
        · rw [if_pos hp, if_pos hp, List.append_assoc]
          rfl
        · rw [if_neg hp, if_neg hp, List.append_assoc]
          rfl
      rw [hasn]
      rfl

/-- C4: for every UPDATE builder with non-empty data, whatever enumeration
order the runtime presents, `buildUpdate` renders
`UPDATE table SET assignments [WHERE conds]` where the SET assignments'
placeholders are numbered starting at 1 (via `specAssignments … 1`,
independently of the numbers already frozen inside the stored WHERE
fragments, which are passed through verbatim), and the returned argument
list is the SET-clause arguments followed by the previously accumulated
WHERE arguments, in that order. -/
theorem buildUpdate_set_first_args (qb : QueryBuilder)
    (entries iter : List (GoStr × GoVal)) (hdata : qb.data = some entries)
    (hiter : iter.Perm entries)
    (hcols : ∀ p ∈ iter, p.1 ≠ ([] : GoStr)) :
    qb.buildUpdate iter =
      (str "UPDATE " ++ qb.table ++ str " SET " ++
        joinSep (str ", ") (specAssignments qb.dbType 1 iter) ++
        (if qb.conditions ≠ [] then
          str " WHERE " ++ joinSep (str " AND ") qb.conditions else []),
       some (iter.map Prod.snd ++
         (if qb.conditions ≠ [] then qb.args else [])), none) := by
  unfold QueryBuilder.buildUpdate
  rw [hdata]
  simp only
  rw [updateLoop_spec qb.dbType iter 1 hcols]
  simp only
  by_cases hc : qb.conditions ≠ []
  · rw [if_pos hc, if_pos hc, if_pos hc]
    simp [List.append_assoc]
  · rw [if_neg hc, if_neg hc, if_neg hc]
    simp

/-- C4 witness: a concrete UPDATE whose WHERE fragment was numbered `$1`
when `Where` ran; the SET clause is nonetheless numbered from `$1` again and
the returned arguments are SET values then WHERE values. -/
theorem buildUpdate_set_first_args_witness :
    QueryBuilder.buildUpdate
      (((BuildUpdate .postgres (str "t")).Where (str "id = ?")
        [GoVal.vInt 7]).Set [(str "a", GoVal.vInt 1), (str "b", GoVal.vInt 2)])
      [(str "a", GoVal.vInt 1), (str "b", GoVal.vInt 2)] =
      (str "UPDATE t SET a = $1, b = $2 WHERE id = $1",
       some [GoVal.vInt 1, GoVal.vInt 2, GoVal.vInt 7], none) :=
  (buildUpdate_set_first_args
    (((BuildUpdate .postgres (str "t")).Where (str "id = ?")
      [GoVal.vInt 7]).Set [(str "a", GoVal.vInt 1), (str "b", GoVal.vInt 2)])
    [(str "a", GoVal.vInt 1), (str "b", GoVal.vInt 2)]
    [(str "a", GoVal.vInt 1), (str "b", GoVal.vInt 2)]
    (by decide) (by decide) (by decide)).trans (by decide)

theorem str_append_ne_nil (p : String) (x : GoStr) (h : p.toList ≠ []) :
    str p ++ x ≠ [] := by
  intro hx
  have hlen := congrArg List.length hx
  rw [List.length_append, List.length_nil] at hlen
  have h0 : (str p).length ≠ 0 := fun h0 =>
    h (List.length_eq_zero.mp h0)
  omega

theorem buildSelect_shape (qb : QueryBuilder) :
    ∃ s a, qb.buildSelect = (s, some a, none) ∧ s ≠ [] := by
  unfold QueryBuilder.buildSelect
  simp only
  refine ⟨_, _, rfl, ?_⟩
  by_cases hl : qb.limit > 0 <;> by_cases ho : qb.offset > 0 <;>
    simp only [hl, ho, if_true, if_false, List.append_assoc] <;>
    exact str_append_ne_nil "SELECT " _ (by decide)

theorem buildInsert_shape (qb : QueryBuilder) (iter : List (GoStr × GoVal)) :
    (∃ s a, qb.buildInsert iter = (s, some a, none) ∧ s ≠ []) ∨
    (∃ e, qb.buildInsert iter = ([], none, some e)) := by
  unfold QueryBuilder.buildInsert
  cases qb.data with
  | none => exact Or.inr ⟨_, rfl⟩
  | some entries =>
      simp only
      cases hloop : insertLoop qb.dbType iter 1 with
      | error e => exact Or.inr ⟨e, rfl⟩
      | ok triple =>
          obtain ⟨cols, phs, args⟩ := triple
          dsimp only
          by_cases hr : qb.dbType = .postgres ∧ qb.returning ≠ []
          · rw [if_pos hr]
            refine Or.inl ⟨_, args, rfl, ?_⟩
            simp only [List.append_assoc]
            exact str_append_ne_nil "INSERT INTO " _ (by decide)
          · rw [if_neg hr]
            refine Or.inl ⟨_, args, rfl, ?_⟩
            simp only [List.append_assoc]
            exact str_append_ne_nil "INSERT INTO " _ (by decide)

theorem buildUpdate_shape (qb : QueryBuilder) (iter : List (GoStr × GoVal)) :
    (∃ s a, qb.buildUpdate iter = (s, some a, none) ∧ s ≠ []) ∨
    (∃ e, qb.buildUpdate iter = ([], none, some e)) := by
  unfold QueryBuilder.buildUpdate
  cases qb.data with
  | none => exact Or.inr ⟨_, rfl⟩
  | some entries =>
      simp only
      cases hloop : updateLoop qb.dbType iter 1 with
      | error e => exact Or.inr ⟨e, rfl⟩
      | ok pair =>
          obtain ⟨setClauses, updateArgs⟩ := pair
          dsimp only
          by_cases hc : qb.conditions ≠ []
          · rw [if_pos hc]
            refine Or.inl ⟨_, _, rfl, ?_⟩
            simp only [List.append_assoc]
            exact str_append_ne_nil "UPDATE " _ (by decide)
          · rw [if_neg hc]
            refine Or.inl ⟨_, _, rfl, ?_⟩
            simp only [List.append_assoc]
            exact str_append_ne_nil "UPDATE " _ (by decide)

/-- C6: `Build()` returns exactly one of two shapes — on success a non-empty
rendered SQL string with an argument slice (`some`) and no error, and on
failure the empty string, the literal `nil` slice (`none`), and a non-null
error; never partially rendered text alongside an error.  This holds for
*every* builder state and every map-enumeration order, with no reachability
assumption. -/
theorem build_two_shapes (qb : QueryBuilder) (iter : List (GoStr × GoVal)) :
    (∃ s a, qb.Build iter = (s, some a, none) ∧ s ≠ []) ∨
    (∃ e, qb.Build iter = ([], none, some e)) := by
  unfold QueryBuilder.Build
  cases qb.err with
  | some e => exact Or.inr ⟨e, rfl⟩
  | none =>
      simp only
      by_cases h1 : qb.op = str "SELECT"
      · rw [if_pos h1]
        obtain ⟨s, a, hs, hne⟩ := buildSelect_shape qb
        exact Or.inl ⟨s, a, hs, hne⟩
      · rw [if_neg h1]
        by_cases h2 : qb.op = str "INSERT"
        · rw [if_pos h2]
          exact buildInsert_shape qb iter
        · rw [if_neg h2]
          by_cases h3 : qb.op = str "UPDATE"
          · rw [if_pos h3]
            exact buildUpdate_shape qb iter
          · rw [if_neg h3]
            by_cases h4 : qb.op = str "DELETE"
            · rw [if_pos h4]
              refine Or.inl ⟨_, _, rfl, ?_⟩
              show str "DELETE FROM " ++ qb.table ++ _ ≠ []
              simp only [List.append_assoc]
              exact str_append_ne_nil "DELETE FROM " _ (by decide)
            · rw [if_neg h4]
              exact Or.inr ⟨_, rfl⟩

/-- C5 counterexample: the claim's hypotheses allow calling `Having` before
`Where` (each call still consumes exactly as many arguments as markers), and
then the placeholder numbers in the final SQL appear as `$2` before `$1` —
not strictly increasing in order of first appearance. -/
theorem select_placeholder_order_counterexample :
    QueryBuilder.Build
      (((BuildSelect .postgres (str "t") []).Having (str "h > ?")
        [GoVal.vInt 1]).Where (str "w = ?") [GoVal.vInt 2]) [] =
      (str "SELECT * FROM t WHERE w = $2 HAVING h > $1",
       some [GoVal.vInt 1, GoVal.vInt 2], none) ∧
    scanPH (str "SELECT * FROM t WHERE w = $2 HAVING h > $1") = [2, 1] ∧
    ¬ List.Chain' (· < ·) [2, 1] :=
  ⟨by decide, by decide, by simp [List.chain'_cons]⟩

theorem EscapeIdentifier_ok_eq {dbType : DBType} {name v : GoStr}
    (h : EscapeIdentifier dbType name = .ok v) : v = name := by
  unfold EscapeIdentifier at h
  by_cases h1 : name = ['*']
  · rw [if_pos h1] at h
    exact (Except.ok.inj h).symm
  · rw [if_neg h1] at h
    by_cases h2 : name = []
    · rw [if_pos h2] at h
      exact absurd h (by simp)
    · rw [if_neg h2] at h
      exact (Except.ok.inj h).symm

theorem sanitizeLoop_ok_eq {dbType : DBType} :
    ∀ {columns l : List GoStr},
      sanitizeLoop dbType columns = .ok l → l = columns := by
  intro columns
  induction columns with
  | nil => intro l h; exact Except.ok.inj h.symm
  | cons c rest ih =>
      intro l h
      unfold sanitizeLoop at h
      cases hesc : EscapeIdentifier dbType c with
      | error e => rw [hesc] at h; exact absurd h (by simp)
      | ok safe =>
          rw [hesc] at h
          cases hrec : sanitizeLoop dbType rest with
          | error e => rw [hrec] at h; exact absurd h (by simp)
          | ok others =>
              rw [hrec] at h
              have h1 := Except.ok.inj h
              rw [← h1, ih hrec, EscapeIdentifier_ok_eq hesc]

theorem sanitizeColumns_ok {dbType : DBType} {columns l : List GoStr}
    (h : sanitizeColumns dbType columns = .ok l) :
    l = columns ∨ l = [str "*"] := by
  unfold sanitizeColumns at h
  by_cases h1 : columns = []
  · rw [if_pos h1] at h
    exact Or.inr (Except.ok.inj h).symm
  · rw [if_neg h1] at h
    exact Or.inl (sanitizeLoop_ok_eq h)

theorem not_mem_joinSep {x : Char} {sep : GoStr} (hsep : x ∉ sep) :
    ∀ {l : List GoStr}, (∀ s ∈ l, x ∉ s) → x ∉ joinSep sep l := by
  intro l
  induction l with
  | nil => intro _; simp [joinSep]
  | cons s rest ih =>
      intro hl
      cases rest with
      | nil => exact hl s (by simp)
      | cons s2 rest2 =>
          show x ∉ s ++ sep ++ joinSep sep (s2 :: rest2)
          intro hmem
          rcases List.mem_append.mp hmem with h1 | h1
          · rcases List.mem_append.mp h1 with h2 | h2
            · exact hl s (by simp) h2
            · exact hsep h2
          · exact ih (fun t ht => hl t (List.mem_cons_of_mem _ ht)) h1

theorem ValidateDirection_cases (dir : GoStr) :
    ValidateDirection dir = str "ASC" ∨ ValidateDirection dir = str "DESC" := by
  unfold ValidateDirection
  by_cases h : toUpperStr dir = str "ASC" ∨ toUpperStr dir = str "DESC"
  · rw [if_pos h]; exact h
  · rw [if_neg h]; exact Or.inl rfl

/-- The scan of an `OrWhere` wrap is the scan of the wrapped fragments. -/
theorem scanPH_orWrap (last q : GoStr) :
    scanPH (['('] ++ last ++ str " OR " ++ q ++ [')']) =
      scanPH last ++ scanPH q := by
  have h0 : ['('] ++ last ++ str " OR " ++ q ++ [')'] =
      '(' :: (last ++ (str " OR " ++ (q ++ [')']))) := by
    simp [List.append_assoc]
  rw [h0, scanPH, scanAux_cons_outside, if_neg (by decide), ← scanPH]
  rw [scanPH_append last (str " OR " ++ (q ++ [')']))
    (headND_append_left _ _ (by decide) (headND_of_head_eq rfl (by decide)))]
  have h1 : scanPH (str " OR " ++ (q ++ [')'])) = scanPH (q ++ [')']) :=
    scanAux_noDollar (by decide) _
  rw [h1, scanPH_append q [')'] (headND_of_head_eq rfl (by decide))]
  have h2 : scanPH [')'] = [] := rfl
  rw [h2, List.append_nil]

/-- The scan of a `col IN (…)` fragment on the positional dialect. -/
theorem scanPH_whereIn_frag (col : GoStr) (hcol : '$' ∉ col)
    (start count : Nat) :
    scanPH (col ++ str " IN (" ++
        GeneratePlaceholders .postgres start count ++ [')']) =
      List.range' start count := by
  have h0 : col ++ str " IN (" ++
        GeneratePlaceholders .postgres start count ++ [')'] =
      (col ++ str " IN (") ++
        (GeneratePlaceholders .postgres start count ++ [')']) := by
    simp [List.append_assoc]
  rw [h0]
  have h1 : '$' ∉ col ++ str " IN (" := by
    intro hm
    rcases List.mem_append.mp hm with h | h
    · exact hcol h
    · exact absurd h (by decide)
  rw [scanPH, scanAux_noDollar h1, ← scanPH,
    scanPH_append _ [')'] (headND_of_head_eq rfl (by decide)),
    scanPH_GeneratePlaceholders]
  rw [show scanPH [')'] = [] from rfl, List.append_nil]

/-- The scan of a `col BETWEEN p1 AND p2` fragment on the positional
dialect. -/
theorem scanPH_between_frag (col : GoStr) (hcol : '$' ∉ col) (n : Nat) :
    scanPH (col ++ str " BETWEEN " ++ phTok .postgres n ++
        str " AND " ++ phTok .postgres (n + 1)) =
      [n, n + 1] := by
  have h0 : col ++ str " BETWEEN " ++ phTok .postgres n ++
        str " AND " ++ phTok .postgres (n + 1) =
      (col ++ str " BETWEEN ") ++
        (('$' :: natToChars n) ++
          (str " AND " ++ (('$' :: natToChars (n + 1)) ++ []))) := by
    simp [phTok, List.append_assoc]
  rw [h0]
  have h1 : '$' ∉ col ++ str " BETWEEN " := by
    intro hm
    rcases List.mem_append.mp hm with h | h
    · exact hcol h
    · exact absurd h (by decide)
  rw [scanPH, scanAux_noDollar h1]
  rw [scanAux_dollar_nat n
    (str " AND " ++ (('$' :: natToChars (n + 1)) ++ []))
    (headND_of_head_eq
      (show (str " AND " ++
        (('$' :: natToChars (n + 1)) ++ [])).head? = some ' ' from rfl)
      (by decide))]
  have h2 : scanPH (str " AND " ++ (('$' :: natToChars (n + 1)) ++ [])) =
      scanPH (('$' :: natToChars (n + 1)) ++ []) :=
    scanAux_noDollar (by decide) _
  rw [h2, scanPH, scanAux_dollar_nat (n + 1) [] headND_nil]
  rfl

theorem noDollar_all {l : List GoStr} (h : l.all noDollar = true) :
    ∀ s ∈ l, '$' ∉ s := fun s hs =>
  noDollar_iff.mp (List.all_eq_true.mp h s hs)

theorem range'_one_append (n k : Nat) :
    List.range' 1 n ++ List.range' (n + 1) k = List.range' 1 (n + k) := by
  have h := List.range'_append 1 n k 1
  simpa [Nat.add_comm] using h

/-- Every reified call is a no-op on a failed builder (this is exactly why
`Returning`/`Subquery`, which lack the guard, are not `SelOp`s). -/
theorem applyOp_failed (qb : QueryBuilder) (o : SelOp) (e : GoErr)
    (h : qb.err = some e) : applyOp qb o = qb := by
  have hs : qb.err.isSome = true := by rw [h]; rfl
  cases o <;>
    simp [applyOp, QueryBuilder.Select, QueryBuilder.Aggregate,
      QueryBuilder.Distinct, QueryBuilder.LeftJoin, QueryBuilder.InnerJoin,
      QueryBuilder.RightJoin, QueryBuilder.Where, QueryBuilder.OrWhere,
      QueryBuilder.WhereIn, QueryBuilder.WhereBetween, QueryBuilder.GroupBy,
      QueryBuilder.Having, QueryBuilder.OrderBy, QueryBuilder.Limit,
      QueryBuilder.Offset, hs]

theorem groupByLoop_inv :
    ∀ (cols : List GoStr) (qb : QueryBuilder),
      (∀ c ∈ cols, '$' ∉ c) → SelInv qb → SelInv (groupByLoop qb cols) := by
  intro cols
  induction cols with
  | nil => intro qb _ hInv; exact hInv
  | cons c rest ih =>
      intro qb hnd hInv
      show SelInv (match EscapeIdentifier qb.dbType c with
        | .error e => { qb with err := some e }
        | .ok safeCol =>
            groupByLoop { qb with groupBy := qb.groupBy ++ [safeCol] } rest)
      cases hesc : EscapeIdentifier qb.dbType c with
      | error e =>
          intro herr'
          exact absurd herr' (by simp)
      | ok safe =>
          apply ih _ fun d hd => hnd d (List.mem_cons_of_mem _ hd)
          intro herr'
          obtain ⟨hdb, htab, hcols, hjoins, hgb, hob, hph⟩ := hInv herr'
          refine ⟨hdb, htab, hcols, hjoins, ?_, hob, hph⟩
          intro s hs
          rcases List.mem_append.mp hs with h1 | h1
          · exact hgb s h1
          · have hsafe : safe = c := EscapeIdentifier_ok_eq hesc
            have hsc : s = safe := by simpa using h1
            subst hsc
            rw [hsafe]
            exact hnd c (by simp)

theorem WhereIn_open (qb : QueryBuilder) (column : GoStr)
    (values : List GoVal) (herr : qb.err = none) (hcol : column ≠ []) :
    qb.WhereIn column values =
      { qb with
        conditions := qb.conditions ++
          [column ++ str " IN (" ++
            GeneratePlaceholders qb.dbType (qb.args.length + 1)
              values.length ++ [')']]
        args := qb.args ++ values } := by
  unfold QueryBuilder.WhereIn
  rw [show qb.err.isSome = false from by rw [herr]; rfl]
  simp only [Bool.false_eq_true, if_false]
  rw [EscapeIdentifier_ok qb.dbType hcol]

theorem WhereBetween_open (qb : QueryBuilder) (column : GoStr)
    (start finish : GoVal) (herr : qb.err = none) (hcol : column ≠ []) :
    qb.WhereBetween column start finish =
      { qb with
        conditions := qb.conditions ++
          [column ++ str " BETWEEN " ++ phTok qb.dbType (qb.args.length + 1)
            ++ str " AND " ++ phTok qb.dbType (qb.args.length + 2)]
        args := qb.args ++ [start, finish] } := by
  unfold QueryBuilder.WhereBetween
  rw [show qb.err.isSome = false from by rw [herr]; rfl]
  simp only [Bool.false_eq_true, if_false]
  rw [EscapeIdentifier_ok qb.dbType hcol]
  simp only
  rw [splitCommaSpace_GeneratePlaceholders_two]
  simp only [List.length_cons, List.length_singleton]
  rw [if_neg (by simp)]
  simp [List.headI, List.tail]

theorem phsum_step (conds having : List GoStr) (args : List GoVal)
    (f : GoStr) (k : Nat)
    (hph : scanPH (joinSep (str " AND ") conds) ++
      scanPH (joinSep (str " AND ") having) = List.range' 1 args.length)
    (hhav : having = [])
    (hf : scanPH f = List.range' (args.length + 1) k) :
    scanPH (joinSep (str " AND ") (conds ++ [f])) ++
      scanPH (joinSep (str " AND ") having) =
      List.range' 1 (args.length + k) := by
  subst hhav
  rw [show scanPH (joinSep (str " AND ") ([] : List GoStr)) = [] from rfl]
    at hph ⊢
  rw [List.append_nil] at hph ⊢
  rw [scanPH_joinAND_snoc, hph, hf, range'_one_append]

theorem phsum_step_having (conds having : List GoStr) (args : List GoVal)
    (f : GoStr) (k : Nat)
    (hph : scanPH (joinSep (str " AND ") conds) ++
      scanPH (joinSep (str " AND ") having) = List.range' 1 args.length)
    (hf : scanPH f = List.range' (args.length + 1) k) :
    scanPH (joinSep (str " AND ") conds) ++
      scanPH (joinSep (str " AND ") (having ++ [f])) =
      List.range' 1 (args.length + k) := by
  rw [scanPH_joinAND_snoc, ← List.append_assoc, hph, hf, range'_one_append]

theorem phsum_step_orwhere (init : List GoStr) (last : GoStr)
    (having : List GoStr) (args : List GoVal) (q : GoStr) (k : Nat)
    (hph : scanPH (joinSep (str " AND ") (init ++ [last])) ++
      scanPH (joinSep (str " AND ") having) = List.range' 1 args.length)
    (hhav : having = [])
    (hq : scanPH q = List.range' (args.length + 1) k) :
    scanPH (joinSep (str " AND ")
        (init ++ [['('] ++ last ++ str " OR " ++ q ++ [')']])) ++
      scanPH (joinSep (str " AND ") having) =
      List.range' 1 (args.length + k) := by
  subst hhav
  rw [show scanPH (joinSep (str " AND ") ([] : List GoStr)) = [] from rfl]
    at hph ⊢
  rw [List.append_nil] at hph ⊢
  rw [scanPH_joinAND_snoc] at hph ⊢
  rw [scanPH_orWrap, ← List.append_assoc, hph, hq, range'_one_append]

theorem selInv_applyOp (qb : QueryBuilder) (o : SelOp) (hwf : o.wf = true)
    (hInv : SelInv qb) (hhav : o.isWhereFam = true → qb.having = []) :
    SelInv (applyOp qb o) := by
  cases herr : qb.err with
  | some e => rw [applyOp_failed qb o e herr]; exact hInv
  | none =>
      have hs0 : qb.err.isSome = false := by rw [herr]; rfl
      obtain ⟨hdb, htab, hcols, hjoins, hgb, hob, hph⟩ := hInv herr
      cases o with
      | opSelect cols =>
          show SelInv (qb.Select cols)
          unfold QueryBuilder.Select
          rw [hs0]
          simp only [Bool.false_eq_true, if_false]
          by_cases hop : qb.op ≠ str "SELECT"
          · rw [if_pos hop]
            intro herr'
            exact absurd herr' (by simp)
          · rw [if_neg hop]
            cases hsc : sanitizeColumns qb.dbType cols with
            | error e2 =>
                intro herr'
                exact absurd herr' (by simp)
            | ok l =>
                intro _
                refine ⟨hdb, htab, ?_, hjoins, hgb, hob, hph⟩
                intro s hs
                rcases List.mem_append.mp hs with h1 | h1
                · exact hcols s h1
                · rcases sanitizeColumns_ok hsc with h2 | h2
                  · subst h2
                    exact noDollar_all hwf s h1
                  · subst h2
                    have h3 : s = str "*" := by simpa using h1
                    subst h3
                    decide
      | opAggregate fn col =>
          show SelInv (qb.Aggregate fn col)
          have hw : noDollar fn = true ∧ noDollar col = true := by
            simpa [SelOp.wf, Bool.and_eq_true] using hwf
          unfold QueryBuilder.Aggregate
          rw [hs0]
          simp only [Bool.false_eq_true, if_false]
          by_cases hop : qb.op ≠ str "SELECT"
          · rw [if_pos hop]
            intro herr'
            exact absurd herr' (by simp)
          · rw [if_neg hop]
            by_cases hfn : fn = []
            · rw [if_pos hfn]
              intro herr'
              exact absurd herr' (by simp)
            · rw [if_neg hfn]
              by_cases hstar : col = ['*']
              · rw [if_pos hstar]
                intro _
                refine ⟨hdb, htab, ?_, hjoins, hgb, hob, hph⟩
                intro s hs
                rcases List.mem_append.mp hs with h1 | h1
                · exact hcols s h1
                · have h3 : s = fn ++ ['('] ++ col ++ [')'] := by
                    simpa using h1
                  subst h3
                  intro hm
                  rcases List.mem_append.mp hm with h | h
                  · rcases List.mem_append.mp h with h4 | h4
                    · rcases List.mem_append.mp h4 with h5 | h5
                      · exact noDollar_iff.mp hw.1 h5
                      · exact absurd h5 (by decide)
                    · rw [hstar] at h4
                      exact absurd h4 (by decide)
                  · exact absurd h (by decide)
              · rw [if_neg hstar]
                cases hesc : EscapeIdentifier qb.dbType col with
                | error e2 =>
                    intro herr'
                    exact absurd herr' (by simp)
                | ok safe =>
                    intro _
                    refine ⟨hdb, htab, ?_, hjoins, hgb, hob, hph⟩
                    intro s hs
                    rcases List.mem_append.mp hs with h1 | h1
                    · exact hcols s h1
                    · have h3 : s = fn ++ ['('] ++ safe ++ [')'] := by
                        simpa using h1
                      subst h3
                      rw [EscapeIdentifier_ok_eq hesc]
                      intro hm
                      rcases List.mem_append.mp hm with h | h
                      · rcases List.mem_append.mp h with h4 | h4
                        · rcases List.mem_append.mp h4 with h5 | h5
                          · exact noDollar_iff.mp hw.1 h5
                          · exact absurd h5 (by decide)
                        · exact noDollar_iff.mp hw.2 h4
                      · exact absurd h (by decide)
      | opDistinct =>
          show SelInv qb.Distinct
          unfold QueryBuilder.Distinct
          rw [hs0]
          simp only [Bool.false_eq_true, if_false]
          by_cases hop : qb.op ≠ str "SELECT"
          · rw [if_pos hop]
            intro herr'
            exact absurd herr' (by simp)
          · rw [if_neg hop]
            intro _
            exact ⟨hdb, htab, hcols, hjoins, hgb, hob, hph⟩
      | opLeftJoin t c =>
          show SelInv (qb.LeftJoin t c)
          have hw : noDollar t = true ∧ noDollar c = true := by
            simpa [SelOp.wf, Bool.and_eq_true] using hwf
          unfold QueryBuilder.LeftJoin
          rw [hs0]
          simp only [Bool.false_eq_true, if_false]
          cases hesc : EscapeIdentifier qb.dbType t with
          | error e2 =>
              intro herr'
              exact absurd herr' (by simp)
          | ok safe =>
              intro _
              refine ⟨hdb, htab, hcols, ?_, hgb, hob, hph⟩
              intro s hs
              rcases List.mem_append.mp hs with h1 | h1
              · exact hjoins s h1
              · have h3 : s = str "LEFT JOIN " ++ safe ++ str " ON " ++ c := by
                  simpa using h1
                subst h3
                rw [EscapeIdentifier_ok_eq hesc]
                intro hm
                rcases List.mem_append.mp hm with h | h
                · rcases List.mem_append.mp h with h4 | h4
                  · rcases List.mem_append.mp h4 with h5 | h5
                    · exact absurd h5 (by decide)
                    · exact noDollar_iff.mp hw.1 h5
                  · exact absurd h4 (by decide)
                · exact noDollar_iff.mp hw.2 h
      | opInnerJoin t c =>
          show SelInv (qb.InnerJoin t c)
          have hw : noDollar t = true ∧ noDollar c = true := by
            simpa [SelOp.wf, Bool.and_eq_true] using hwf
          unfold QueryBuilder.InnerJoin
          rw [hs0]
          simp only [Bool.false_eq_true, if_false]
          cases hesc : EscapeIdentifier qb.dbType t with
          | error e2 =>
              intro herr'
              exact absurd herr' (by simp)
          | ok safe =>
              intro _
              refine ⟨hdb, htab, hcols, ?_, hgb, hob, hph⟩
              intro s hs
              rcases List.mem_append.mp hs with h1 | h1
              · exact hjoins s h1
              · have h3 : s = str "INNER JOIN " ++ safe ++ str " ON " ++ c := by
                  simpa using h1
                subst h3
                rw [EscapeIdentifier_ok_eq hesc]
                intro hm
                rcases List.mem_append.mp hm with h | h
                · rcases List.mem_append.mp h with h4 | h4
                  · rcases List.mem_append.mp h4 with h5 | h5
                    · exact absurd h5 (by decide)
                    · exact noDollar_iff.mp hw.1 h5
                  · exact absurd h4 (by decide)
                · exact noDollar_iff.mp hw.2 h
      | opRightJoin t c =>
          show SelInv (qb.RightJoin t c)
          have hw : noDollar t = true ∧ noDollar c = true := by
            simpa [SelOp.wf, Bool.and_eq_true] using hwf
          unfold QueryBuilder.RightJoin
          rw [hs0]
          simp only [Bool.false_eq_true, if_false]
          cases hesc : EscapeIdentifier qb.dbType t with
          | error e2 =>
              intro herr'
              exact absurd herr' (by simp)
          | ok safe =>
              intro _
              refine ⟨hdb, htab, hcols, ?_, hgb, hob, hph⟩
              intro s hs
              rcases List.mem_append.mp hs with h1 | h1
              · exact hjoins s h1
              · have h3 : s = str "RIGHT JOIN " ++ safe ++ str " ON " ++ c := by
                  simpa using h1
                subst h3
                rw [EscapeIdentifier_ok_eq hesc]
                intro hm
                rcases List.mem_append.mp hm with h | h
                · rcases List.mem_append.mp h with h4 | h4
                  · rcases List.mem_append.mp h4 with h5 | h5
                    · exact absurd h5 (by decide)
                    · exact noDollar_iff.mp hw.1 h5
                  · exact absurd h4 (by decide)
                · exact noDollar_iff.mp hw.2 h
      | opWhere c a =>
          show SelInv (qb.Where c a)
          obtain ⟨hc1, hc2, hc3⟩ :
              noDollar c = true ∧ noQD c = true ∧ countQ c = a.length := by
            have := hwf
            simp only [SelOp.wf, Bool.and_eq_true] at this
            exact ⟨this.1.1, this.1.2, by simpa using this.2⟩
          by_cases hcnil : c = []
          · rw [hcnil, Where_open_empty qb a herr]
            intro herr'
            exact absurd herr' (by simp)
          · rw [Where_open qb c a herr hcnil]
            intro _
            refine ⟨hdb, htab, hcols, hjoins, hgb, hob, ?_⟩
            show scanPH (joinSep (str " AND ") (qb.conditions ++
              [ReplacePlaceholders qb.dbType c (qb.args.length + 1)])) ++
              scanPH (joinSep (str " AND ") qb.having) = _
            rw [List.length_append, ← hc3]
            refine phsum_step qb.conditions qb.having qb.args _ _ hph
              (hhav rfl) ?_
            rw [hdb]
            show scanPH (replacePH c (qb.args.length + 1)) = _
            exact scanPH_replacePH c (noDollar_iff.mp hc1) hc2 _
      | opOrWhere c a =>
          show SelInv (qb.OrWhere c a)
          obtain ⟨hc1, hc2, hc3⟩ :
              noDollar c = true ∧ noQD c = true ∧ countQ c = a.length := by
            have := hwf
            simp only [SelOp.wf, Bool.and_eq_true] at this
            exact ⟨this.1.1, this.1.2, by simpa using this.2⟩
          by_cases hcnil : c = []
          · have hstep : qb.OrWhere c a = { qb with
                err := some .emptyCondition } := by
              unfold QueryBuilder.OrWhere
              rw [hs0]
              simp [hcnil]
            rw [hstep]
            intro herr'
            exact absurd herr' (by simp)
          · rcases hcondcase : qb.conditions with _ | ⟨c0, cs⟩
            · rw [OrWhere_open_nil qb c a herr hcnil hcondcase,
                Where_open qb c a herr hcnil]
              intro _
              refine ⟨hdb, htab, hcols, hjoins, hgb, hob, ?_⟩
              show scanPH (joinSep (str " AND ") (qb.conditions ++
                [ReplacePlaceholders qb.dbType c (qb.args.length + 1)])) ++
                scanPH (joinSep (str " AND ") qb.having) = _
              rw [List.length_append, ← hc3]
              refine phsum_step qb.conditions qb.having qb.args _ _ hph
                (hhav rfl) ?_
              rw [hdb]
              show scanPH (replacePH c (qb.args.length + 1)) = _
              exact scanPH_replacePH c (noDollar_iff.mp hc1) hc2 _
            · obtain ⟨init, last, hil⟩ :
                  ∃ i l, qb.conditions = i ++ [l] := by
                rw [hcondcase]
                exact ⟨(c0 :: cs).dropLast, (c0 :: cs).getLast (by simp), by
                  simpa using (List.dropLast_append_getLast (l := c0 :: cs)
                    (by simp)).symm⟩
              rw [OrWhere_open_snoc qb c a herr hcnil init last hil]
              intro _
              refine ⟨hdb, htab, hcols, hjoins, hgb, hob, ?_⟩
              show scanPH (joinSep (str " AND ") (init ++
                [['('] ++ last ++ str " OR " ++
                  ReplacePlaceholders qb.dbType c (qb.args.length + 1) ++
                  [')']])) ++
                scanPH (joinSep (str " AND ") qb.having) = _
              rw [List.length_append, ← hc3]
              refine phsum_step_orwhere init last qb.having qb.args _ _
                (hil ▸ hph) (hhav rfl) ?_
              rw [hdb]
              show scanPH (replacePH c (qb.args.length + 1)) = _
              exact scanPH_replacePH c (noDollar_iff.mp hc1) hc2 _
      | opWhereIn col vs =>
          show SelInv (qb.WhereIn col vs)
          by_cases hcol : col = []
          · have hstep : qb.WhereIn col vs = { qb with
                err := some .emptyIdentifier } := by
              unfold QueryBuilder.WhereIn
              rw [hs0]
              simp only [Bool.false_eq_true, if_false]
              rw [hcol]
              rfl
            rw [hstep]
            intro herr'
            exact absurd herr' (by simp)
          · rw [WhereIn_open qb col vs herr hcol]
            intro _
            refine ⟨hdb, htab, hcols, hjoins, hgb, hob, ?_⟩
            show scanPH (joinSep (str " AND ") (qb.conditions ++
              [col ++ str " IN (" ++
                GeneratePlaceholders qb.dbType (qb.args.length + 1)
                  vs.length ++ [')']])) ++
              scanPH (joinSep (str " AND ") qb.having) = _
            rw [List.length_append]
            refine phsum_step qb.conditions qb.having qb.args _ _ hph
              (hhav rfl) ?_
            rw [hdb]
            exact scanPH_whereIn_frag col
              (noDollar_iff.mp (by simpa [SelOp.wf] using hwf)) _ _
      | opWhereBetween col a b =>
          show SelInv (qb.WhereBetween col a b)
          by_cases hcol : col = []
          · have hstep : qb.WhereBetween col a b = { qb with
                err := some .emptyIdentifier } := by
              unfold QueryBuilder.WhereBetween
              rw [hs0]
              simp only [Bool.false_eq_true, if_false]
              rw [hcol]
              rfl
            rw [hstep]
            intro herr'
            exact absurd herr' (by simp)
          · rw [WhereBetween_open qb col a b herr hcol]
            intro _
            refine ⟨hdb, htab, hcols, hjoins, hgb, hob, ?_⟩
            show scanPH (joinSep (str " AND ") (qb.conditions ++
              [col ++ str " BETWEEN " ++
                phTok qb.dbType (qb.args.length + 1) ++ str " AND " ++
                phTok qb.dbType (qb.args.length + 2)])) ++
              scanPH (joinSep (str " AND ") qb.having) = _
            rw [List.length_append]
            refine phsum_step qb.conditions qb.having qb.args _ 2 hph
              (hhav rfl) ?_
            rw [hdb]
            rw [scanPH_between_frag col
              (noDollar_iff.mp (by simpa [SelOp.wf] using hwf)) _]
            rfl
      | opGroupBy cols =>
          show SelInv (qb.GroupBy cols)
          unfold QueryBuilder.GroupBy
          rw [hs0]
          simp only [Bool.false_eq_true, if_false]
          exact groupByLoop_inv cols qb (noDollar_all hwf) hInv
      | opHaving c a =>
          show SelInv (qb.Having c a)
          obtain ⟨hc1, hc2, hc3⟩ :
              noDollar c = true ∧ noQD c = true ∧ countQ c = a.length := by
            have := hwf
            simp only [SelOp.wf, Bool.and_eq_true] at this
            exact ⟨this.1.1, this.1.2, by simpa using this.2⟩
          rw [Having_open qb c a herr]
          intro _
          refine ⟨hdb, htab, hcols, hjoins, hgb, hob, ?_⟩
          show scanPH (joinSep (str " AND ") qb.conditions) ++
            scanPH (joinSep (str " AND ") (qb.having ++
              [ReplacePlaceholders qb.dbType c (qb.args.length + 1)])) = _
          rw [List.length_append, ← hc3]
          refine phsum_step_having qb.conditions qb.having qb.args _ _
            hph ?_
          rw [hdb]
          show scanPH (replacePH c (qb.args.length + 1)) = _
          exact scanPH_replacePH c (noDollar_iff.mp hc1) hc2 _
      | opOrderBy col dir al =>
          show SelInv (qb.OrderBy col dir al)
          unfold QueryBuilder.OrderBy
          rw [hs0]
          simp only [Bool.false_eq_true, if_false]
          have hcolnd : '$' ∉ col :=
            noDollar_iff.mp (by simpa [SelOp.wf] using hwf)
          cases al with
          | none =>
              by_cases hcol : col = []
              · rw [hcol]
                intro herr'
                exact absurd herr' (by simp [EscapeIdentifier])
              · simp only
                rw [EscapeIdentifier_ok qb.dbType hcol]
                intro _
                refine ⟨hdb, htab, hcols, hjoins, hgb, ?_, hph⟩
                intro hm
                rcases List.mem_append.mp hm with h | h
                · rcases List.mem_append.mp h with h4 | h4
                  · exact hcolnd h4
                  · exact absurd h4 (by decide)
                · rcases ValidateDirection_cases dir with hv | hv <;>
                    rw [hv] at h <;> exact absurd h (by decide)
          | some m =>
              simp only
              by_cases hmem : mapContains m col
              · rw [if_pos hmem]
                by_cases hcol : col = []
                · rw [hcol]
                  intro herr'
                  exact absurd herr' (by simp [EscapeIdentifier])
                · rw [EscapeIdentifier_ok qb.dbType hcol]
                  intro _
                  refine ⟨hdb, htab, hcols, hjoins, hgb, ?_, hph⟩
                  intro hm
                  rcases List.mem_append.mp hm with h | h
                  · rcases List.mem_append.mp h with h4 | h4
                    · exact hcolnd h4
                    · exact absurd h4 (by decide)
                  · rcases ValidateDirection_cases dir with hv | hv <;>
                      rw [hv] at h <;> exact absurd h (by decide)
              · rw [if_neg hmem]
                rw [EscapeIdentifier_ok qb.dbType (by decide)]
                intro _
                refine ⟨hdb, htab, hcols, hjoins, hgb, ?_, hph⟩
                intro hm
                rcases List.mem_append.mp hm with h | h
                · rcases List.mem_append.mp h with h4 | h4
                  · exact absurd h4 (by decide)
                  · exact absurd h4 (by decide)
                · rcases ValidateDirection_cases dir with hv | hv <;>
                    rw [hv] at h <;> exact absurd h (by decide)
      | opLimit n =>
          show SelInv (qb.Limit n)
          unfold QueryBuilder.Limit
          rw [hs0]
          simp only [Bool.false_eq_true, if_false]
          intro _
          exact ⟨hdb, htab, hcols, hjoins, hgb, hob, hph⟩
      | opOffset n =>
          show SelInv (qb.Offset n)
          unfold QueryBuilder.Offset
          rw [hs0]
          simp only [Bool.false_eq_true, if_false]
          intro _
          exact ⟨hdb, htab, hcols, hjoins, hgb, hob, hph⟩

theorem groupByLoop_having :
    ∀ (cols : List GoStr) (qb : QueryBuilder),
      (groupByLoop qb cols).having = qb.having := by
  intro cols
  induction cols with
  | nil => intro qb; rfl
  | cons c rest ih =>
      intro qb
      show QueryBuilder.having (match EscapeIdentifier qb.dbType c with
        | .error e => { qb with err := some e }
        | .ok safeCol =>
            groupByLoop { qb with groupBy := qb.groupBy ++ [safeCol] } rest)
        = qb.having
      cases EscapeIdentifier qb.dbType c with
      | error e => rfl
      | ok safe => exact ih _

/-- Only `Having` (among the reified calls) can change the `having` list. -/
theorem applyOp_having (qb : QueryBuilder) (o : SelOp)
    (h : o.isHaving = false) : (applyOp qb o).having = qb.having := by
  cases o with
  | opGroupBy cols =>
      show (qb.GroupBy cols).having = qb.having
      unfold QueryBuilder.GroupBy
      by_cases hs : qb.err.isSome
      · rw [if_pos hs]
      · rw [if_neg hs]
        exact groupByLoop_having cols qb
  | opHaving c a => exact absurd h (by simp [SelOp.isHaving])
  | opSelect cols =>
      show (qb.Select cols).having = qb.having
      unfold QueryBuilder.Select
      split
      · rfl
      · split
        · rfl
        · split <;> rfl
  | opAggregate fn col =>
      show (qb.Aggregate fn col).having = qb.having
      unfold QueryBuilder.Aggregate
      split
      · rfl
      · split
        · rfl
        · split
          · rfl
          · split
            · rfl
            · split <;> rfl
  | opDistinct =>
      show qb.Distinct.having = qb.having
      unfold QueryBuilder.Distinct
      split
      · rfl
      · split <;> rfl
  | opLeftJoin t c =>
      show (qb.LeftJoin t c).having = qb.having
      unfold QueryBuilder.LeftJoin
      split
      · rfl
      · split <;> rfl
  | opInnerJoin t c =>
      show (qb.InnerJoin t c).having = qb.having
      unfold QueryBuilder.InnerJoin
      split
      · rfl
      · split <;> rfl
  | opRightJoin t c =>
      show (qb.RightJoin t c).having = qb.having
      unfold QueryBuilder.RightJoin
      split
      · rfl
      · split <;> rfl
  | opWhere c a =>
      show (qb.Where c a).having = qb.having
      unfold QueryBuilder.Where
      split
      · rfl
      · split <;> rfl
  | opOrWhere c a =>
      show (qb.OrWhere c a).having = qb.having
      unfold QueryBuilder.OrWhere
      split
      · rfl
      · split
        · rfl
        · split <;> rfl
  | opWhereIn col vs =>
      show (qb.WhereIn col vs).having = qb.having
      unfold QueryBuilder.WhereIn
      split
      · rfl
      · split <;> rfl
  | opWhereBetween col a b =>
      show (qb.WhereBetween col a b).having = qb.having
      unfold QueryBuilder.WhereBetween
      split
      · rfl
      · split
        · rfl
        · dsimp only
          split <;> rfl
  | opOrderBy col dir al =>
      show (qb.OrderBy col dir al).having = qb.having
      unfold QueryBuilder.OrderBy
      split
      · rfl
      · dsimp only
        split <;> rfl
  | opLimit n =>
      show (qb.Limit n).having = qb.having
      unfold QueryBuilder.Limit
      split <;> rfl
  | opOffset n =>
      show (qb.Offset n).having = qb.having
      unfold QueryBuilder.Offset
      split <;> rfl

theorem selInv_applyOps :
    ∀ (ops : List SelOp) (qb : QueryBuilder),
      (∀ o ∈ ops, o.wf = true) → noWhereAfterHaving ops = true →
      (qb.having = [] ∨ ∀ o ∈ ops, o.isWhereFam = false) →
      SelInv qb → SelInv (applyOps qb ops) := by
  intro ops
  induction ops with
  | nil => intro qb _ _ _ hInv; exact hInv
  | cons o rest ih =>
      intro qb hwf hord hhav hInv
      have hord' : ((if o.isHaving then rest.all fun p => !p.isWhereFam
          else true) && noWhereAfterHaving rest) = true := hord
      obtain ⟨hord1, hord2⟩ := (Bool.and_eq_true _ _).mp hord'
      show SelInv (applyOps (applyOp qb o) rest)
      apply ih
      · exact fun p hp => hwf p (List.mem_cons_of_mem _ hp)
      · exact hord2
      · by_cases hoh : o.isHaving = true
        · rw [if_pos hoh] at hord1
          refine Or.inr fun p hp => ?_
          have := List.all_eq_true.mp hord1 p hp
          simpa using this
        · have hkeep : (applyOp qb o).having = qb.having :=
            applyOp_having qb o (by simpa using hoh)
          rcases hhav with h | h
          · exact Or.inl (hkeep.trans h)
          · exact Or.inr fun p hp => h p (List.mem_cons_of_mem _ hp)
      · apply selInv_applyOp qb o (hwf o (by simp)) hInv
        intro hwfam
        rcases hhav with h | h
        · exact h
        · exact absurd (h o (by simp)) (by simp [hwfam])

theorem selInv_init (table : GoStr) (cols : List GoStr)
    (htab : '$' ∉ table) (hcols : ∀ s ∈ cols, '$' ∉ s) :
    SelInv (BuildSelect .postgres table cols) := by
  unfold BuildSelect newBuilder
  rw [if_neg (by decide)]
  by_cases htabnil : table = []
  · rw [if_pos htabnil]
    intro herr'
    exact absurd herr' (by simp)
  · rw [if_neg htabnil, EscapeIdentifier_ok _ htabnil]
    cases hsc : sanitizeColumns DBType.postgres cols with
    | error e =>
        intro herr'
        exact absurd herr' (by simp)
    | ok l =>
        intro _
        refine ⟨rfl, htab, ?_, by simp, by simp, by simp, rfl⟩
        intro s hs
        rcases sanitizeColumns_ok hsc with h2 | h2
        · subst h2
          exact hcols s hs
        · subst h2
          have h3 : s = str "*" := by simpa using hs
          subst h3
          decide

theorem headND_append (a b : GoStr) (ha : headND a) (hb : headND b) :
    headND (a ++ b) := by
  cases a with
  | nil => exact hb
  | cons c rest =>
      exact headND_cons (ha c (by simp))

/-- Scanning the full rendered SELECT text (before LIMIT/OFFSET) yields
exactly the placeholders of the WHERE fragments followed by those of the
HAVING fragments: every other segment is `$`-free. -/
theorem scanPH_selectBase (dist : Bool) (columns : List GoStr)
    (table : GoStr) (joins conditions groupBy having : List GoStr)
    (orderBy : GoStr) (htab : '$' ∉ table)
    (hcols : ∀ s ∈ columns, '$' ∉ s) (hjoins : ∀ s ∈ joins, '$' ∉ s)
    (hgb : ∀ s ∈ groupBy, '$' ∉ s) (hob : '$' ∉ orderBy) :
    scanPH (str "SELECT " ++ (if dist then str "DISTINCT " else []) ++
      joinSep (str ", ") columns ++ str " FROM " ++ table ++
      (if joins ≠ [] then [' '] ++ joinSep [' '] joins else []) ++
      (if conditions ≠ [] then
        str " WHERE " ++ joinSep (str " AND ") conditions else []) ++
      (if groupBy ≠ [] then
        str " GROUP BY " ++ joinSep (str ", ") groupBy else []) ++
      (if having ≠ [] then
        str " HAVING " ++ joinSep (str " AND ") having else []) ++
      (if orderBy ≠ [] then str " ORDER BY " ++ orderBy else [])) =
      scanPH (joinSep (str " AND ") conditions) ++
        scanPH (joinSep (str " AND ") having) := by
  have hOC : '$' ∉ (if orderBy ≠ [] then str " ORDER BY " ++ orderBy
      else []) := by
    by_cases h : orderBy ≠ []
    · rw [if_pos h]
      intro hm
      rcases List.mem_append.mp hm with h1 | h1
      · exact absurd h1 (by decide)
      · exact hob h1
    · rw [if_neg h]
      simp
  have hGC : '$' ∉ (if groupBy ≠ [] then
      str " GROUP BY " ++ joinSep (str ", ") groupBy else []) := by
    by_cases h : groupBy ≠ []
    · rw [if_pos h]
      intro hm
      rcases List.mem_append.mp hm with h1 | h1
      · exact absurd h1 (by decide)
      · exact not_mem_joinSep (by decide) hgb h1
    · rw [if_neg h]
      simp
  have hOCh : headND (if orderBy ≠ [] then str " ORDER BY " ++ orderBy
      else []) := by
    by_cases h : orderBy ≠ []
    · rw [if_pos h]
      exact headND_of_head_eq rfl (by decide)
    · rw [if_neg h]
      exact headND_nil
  have hHCh : headND (if having ≠ [] then
      str " HAVING " ++ joinSep (str " AND ") having else []) := by
    by_cases h : having ≠ []
    · rw [if_pos h]
      exact headND_of_head_eq rfl (by decide)
    · rw [if_neg h]
      exact headND_nil
  have hGCh : headND (if groupBy ≠ [] then
      str " GROUP BY " ++ joinSep (str ", ") groupBy else []) := by
    by_cases h : groupBy ≠ []
    · rw [if_pos h]
      exact headND_of_head_eq rfl (by decide)
    · rw [if_neg h]
      exact headND_nil
  have hP : '$' ∉ str "SELECT " ++ (if dist then str "DISTINCT " else []) ++
      joinSep (str ", ") columns ++ str " FROM " ++ table ++
      (if joins ≠ [] then [' '] ++ joinSep [' '] joins else []) := by
    intro hm
    rcases List.mem_append.mp hm with h1 | h1
    · rcases List.mem_append.mp h1 with h2 | h2
      · rcases List.mem_append.mp h2 with h3 | h3
        · rcases List.mem_append.mp h3 with h4 | h4
          · rcases List.mem_append.mp h4 with h5 | h5
            · exact absurd h5 (by decide)
            · by_cases hd : dist
              · rw [if_pos hd] at h5
                exact absurd h5 (by decide)
              · rw [if_neg hd] at h5
                simp at h5
          · exact not_mem_joinSep (by decide) hcols h4
        · exact absurd h3 (by decide)
      · exact htab h2
    · by_cases hj : joins ≠ []
      · rw [if_pos hj] at h1
        rcases List.mem_append.mp h1 with h2 | h2
        · exact absurd h2 (by decide)
        · exact not_mem_joinSep (by decide) hjoins h2
      · rw [if_neg hj] at h1
        simp at h1
  have hsplit : str "SELECT " ++ (if dist then str "DISTINCT " else []) ++
      joinSep (str ", ") columns ++ str " FROM " ++ table ++
      (if joins ≠ [] then [' '] ++ joinSep [' '] joins else []) ++
      (if conditions ≠ [] then
        str " WHERE " ++ joinSep (str " AND ") conditions else []) ++
      (if groupBy ≠ [] then
        str " GROUP BY " ++ joinSep (str ", ") groupBy else []) ++
      (if having ≠ [] then
        str " HAVING " ++ joinSep (str " AND ") having else []) ++
      (if orderBy ≠ [] then str " ORDER BY " ++ orderBy else []) =
      (str "SELECT " ++ (if dist then str "DISTINCT " else []) ++
        joinSep (str ", ") columns ++ str " FROM " ++ table ++
        (if joins ≠ [] then [' '] ++ joinSep [' '] joins else [])) ++
      ((if conditions ≠ [] then
        str " WHERE " ++ joinSep (str " AND ") conditions else []) ++
      ((if groupBy ≠ [] then
        str " GROUP BY " ++ joinSep (str ", ") groupBy else []) ++
      ((if having ≠ [] then
        str " HAVING " ++ joinSep (str " AND ") having else []) ++
      (if orderBy ≠ [] then str " ORDER BY " ++ orderBy else [])))) := by
    simp [List.append_assoc]
  rw [hsplit, scanPH, scanAux_noDollar hP, ← scanPH]
  have hHO : scanPH ((if having ≠ [] then
      str " HAVING " ++ joinSep (str " AND ") having else []) ++
      (if orderBy ≠ [] then str " ORDER BY " ++ orderBy else [])) =
      scanPH (joinSep (str " AND ") having) := by
    by_cases h : having ≠ []
    · rw [if_pos h, List.append_assoc, scanPH, scanAux_noDollar (by decide),
        ← scanPH, scanPH_append _ _ hOCh, scanPH_noDollar hOC,
        List.append_nil]
    · rw [if_neg h, List.nil_append, scanPH_noDollar hOC]
      have h0 : having = [] := by simpa using h
      rw [h0]
      rfl
  have hGHO : scanPH ((if groupBy ≠ [] then
      str " GROUP BY " ++ joinSep (str ", ") groupBy else []) ++
      ((if having ≠ [] then
        str " HAVING " ++ joinSep (str " AND ") having else []) ++
      (if orderBy ≠ [] then str " ORDER BY " ++ orderBy else []))) =
      scanPH (joinSep (str " AND ") having) := by
    rw [scanPH, scanAux_noDollar hGC, ← scanPH, hHO]
  by_cases hcond : conditions ≠ []
  · rw [if_pos hcond, List.append_assoc, scanPH,
      scanAux_noDollar (show '$' ∉ str " WHERE " by decide), ← scanPH,
      scanPH_append _ _ (headND_append _ _ hGCh (headND_append _ _ hHCh
        hOCh)), hGHO]
  · rw [if_neg hcond, List.nil_append, hGHO]
    have h0 : conditions = [] := by simpa using hcond
    rw [h0]
    rfl

theorem headND_space_str (p : String) (x : GoStr)
    (hp : (str p).head? = some ' ') : headND (str p ++ x) := by
  cases hsp : str p with
  | nil => rw [hsp] at hp; simp at hp
  | cons c rest =>
      rw [hsp] at hp
      have hc : c = ' ' := by simpa using hp
      rw [hc]
      exact headND_cons (by decide)

theorem scanPH_dollar_nat (k : Nat) : scanPH ('$' :: natToChars k) = [k] := by
  have h := scanAux_dollar_nat k [] headND_nil
  rw [List.append_nil] at h
  simpa [scanPH] using h

theorem scanPH_limit_piece (k : Nat) :
    scanPH (str " LIMIT $" ++ natToChars k) = [k] := by
  have h0 : str " LIMIT $" ++ natToChars k =
      str " LIMIT " ++ ('$' :: natToChars k) := rfl
  rw [h0, scanPH, scanAux_noDollar (by decide), ← scanPH,
    scanPH_dollar_nat]

theorem scanPH_offset_piece (k : Nat) :
    scanPH (str " OFFSET $" ++ natToChars k) = [k] := by
  have h0 : str " OFFSET $" ++ natToChars k =
      str " OFFSET " ++ ('$' :: natToChars k) := rfl
  rw [h0, scanPH, scanAux_noDollar (by decide), ← scanPH,
    scanPH_dollar_nat]

theorem range'_snoc_one (n : Nat) :
    List.range' 1 n ++ [n + 1] = List.range' 1 (n + 1) := by
  have h := range'_one_append n 1
  simpa using h

/-- On an open invariant-satisfying SELECT builder, the rendered SQL's
placeholder numbers are exactly `$1 … $m` in order, where `m` is the length
of the returned argument list (LIMIT and OFFSET extend the numbering at the
end). -/
theorem buildSelect_scan (qb : QueryBuilder) (hInv : SelInv qb)
    (herr : qb.err = none) :
    ∃ sql args, qb.buildSelect = (sql, some args, none) ∧
      scanPH sql = List.range' 1 args.length := by
  obtain ⟨hdb, htab, hcols, hjoins, hgb, hob, hph⟩ := hInv herr
  have hbase := scanPH_selectBase qb.distinct qb.columns qb.table qb.joins
    qb.conditions qb.groupBy qb.having qb.orderBy htab hcols hjoins hgb hob
  rw [hph] at hbase
  unfold QueryBuilder.buildSelect
  dsimp only
  by_cases ho : qb.offset > 0
  · rw [if_pos ho]
    by_cases hl : qb.limit > 0
    · rw [if_pos hl]
      dsimp only
      rw [if_pos hdb, if_pos hdb]
      refine ⟨_, _, rfl, ?_⟩
      rw [scanPH_append _ _ (headND_space_str " OFFSET $" _ rfl)]
      rw [scanPH_append _ _ (headND_space_str " LIMIT $" _ rfl)]
      rw [hbase, scanPH_limit_piece, scanPH_offset_piece]
      rw [range'_snoc_one]
      have hlen : (qb.args ++ [GoVal.vInt qb.limit]).length =
          qb.args.length + 1 := by simp
      rw [hlen, range'_snoc_one]
      have hlen2 : (qb.args ++ [GoVal.vInt qb.limit] ++
          [GoVal.vInt qb.offset]).length = qb.args.length + 1 + 1 := by simp
      rw [hlen2]
    · rw [if_neg hl]
      dsimp only
      rw [if_pos hdb]
      refine ⟨_, _, rfl, ?_⟩
      rw [scanPH_append _ _ (headND_space_str " OFFSET $" _ rfl)]
      rw [hbase, scanPH_offset_piece, range'_snoc_one]
      have hlen : (qb.args ++ [GoVal.vInt qb.offset]).length =
          qb.args.length + 1 := by simp
      rw [hlen]
  · rw [if_neg ho]
    by_cases hl : qb.limit > 0
    · rw [if_pos hl]
      dsimp only
      rw [if_pos hdb]
      refine ⟨_, _, rfl, ?_⟩
      rw [scanPH_append _ _ (headND_space_str " LIMIT $" _ rfl)]
      rw [hbase, scanPH_limit_piece, range'_snoc_one]
      have hlen : (qb.args ++ [GoVal.vInt qb.limit]).length =
          qb.args.length + 1 := by simp
      rw [hlen]
    · rw [if_neg hl]
      exact ⟨_, _, rfl, hbase⟩

theorem groupByLoop_op :
    ∀ (cols : List GoStr) (qb : QueryBuilder),
      (groupByLoop qb cols).op = qb.op := by
  intro cols
  induction cols with
  | nil => intro qb; rfl
  | cons c rest ih =>
      intro qb
      show QueryBuilder.op (match EscapeIdentifier qb.dbType c with
        | .error e => { qb with err := some e }
        | .ok safeCol =>
            groupByLoop { qb with groupBy := qb.groupBy ++ [safeCol] } rest)
        = qb.op
      cases EscapeIdentifier qb.dbType c with
      | error e => rfl
      | ok safe => exact ih _

/-- No reified call changes the operation kind. -/
theorem applyOp_op (qb : QueryBuilder) (o : SelOp) :
    (applyOp qb o).op = qb.op := by
  cases o with
  | opGroupBy cols =>
      show (qb.GroupBy cols).op = qb.op
      unfold QueryBuilder.GroupBy
      by_cases hs : qb.err.isSome
      · rw [if_pos hs]
      · rw [if_neg hs]
        exact groupByLoop_op cols qb
  | opSelect cols =>
      show (qb.Select cols).op = qb.op
      unfold QueryBuilder.Select
      split
      · rfl
      · split
        · rfl
        · split <;> rfl
  | opAggregate fn col =>
      show (qb.Aggregate fn col).op = qb.op
      unfold QueryBuilder.Aggregate
      split
      · rfl
      · split
        · rfl
        · split
          · rfl
          · split
            · rfl
            · split <;> rfl
  | opDistinct =>
      show qb.Distinct.op = qb.op
      unfold QueryBuilder.Distinct
      split
      · rfl
      · split <;> rfl
  | opLeftJoin t c =>
      show (qb.LeftJoin t c).op = qb.op
      unfold QueryBuilder.LeftJoin
      split
      · rfl
      · split <;> rfl
  | opInnerJoin t c =>
      show (qb.InnerJoin t c).op = qb.op
      unfold QueryBuilder.InnerJoin
      split
      · rfl
      · split <;> rfl
  | opRightJoin t c =>
      show (qb.RightJoin t c).op = qb.op
      unfold QueryBuilder.RightJoin
      split
      · rfl
      · split <;> rfl
  | opWhere c a =>
      show (qb.Where c a).op = qb.op
      unfold QueryBuilder.Where
      split
      · rfl
      · split <;> rfl
  | opOrWhere c a =>
      show (qb.OrWhere c a).op = qb.op
      unfold QueryBuilder.OrWhere
      split
      · rfl
      · split
        · rfl
        · split <;> rfl
  | opWhereIn col vs =>
      show (qb.WhereIn col vs).op = qb.op
      unfold QueryBuilder.WhereIn
      split
      · rfl
      · split <;> rfl
  | opWhereBetween col a b =>
      show (qb.WhereBetween col a b).op = qb.op
      unfold QueryBuilder.WhereBetween
      split
      · rfl
      · split
        · rfl
        · dsimp only
          split <;> rfl
  | opHaving c a =>
      show (qb.Having c a).op = qb.op
      unfold QueryBuilder.Having
      split <;> rfl
  | opOrderBy col dir al =>
      show (qb.OrderBy col dir al).op = qb.op
      unfold QueryBuilder.OrderBy
      split
      · rfl
      · dsimp only
        split <;> rfl
  | opLimit n =>
      show (qb.Limit n).op = qb.op
      unfold QueryBuilder.Limit
      split <;> rfl
  | opOffset n =>
      show (qb.Offset n).op = qb.op
      unfold QueryBuilder.Offset
      split <;> rfl

theorem applyOps_op :
    ∀ (ops : List SelOp) (qb : QueryBuilder),
      (applyOps qb ops).op = qb.op := by
  intro ops
  induction ops with
  | nil => intro qb; rfl
  | cons o rest ih =>
      intro qb
      show (applyOps (applyOp qb o) rest).op = qb.op
      rw [ih, applyOp_op]

theorem BuildSelect_op (dbType : DBType) (table : GoStr)
    (cols : List GoStr) :
    (BuildSelect dbType table cols).op = str "SELECT" := by
  unfold BuildSelect newBuilder
  split
  · rfl
  · split
    · rfl
    · split
      · rfl
      · split <;> rfl

theorem BuildSelect_having (dbType : DBType) (table : GoStr)
    (cols : List GoStr) :
    (BuildSelect dbType table cols).having = [] := by
  unfold BuildSelect newBuilder
  split
  · rfl
  · split
    · rfl
    · split
      · rfl
      · split <;> rfl

/-- C5 amended: for a SELECT builder on the positional-numbered dialect
built from well-formed chained calls (each `Where`/`OrWhere`/`Having`/
`WhereIn`/`WhereBetween` call supplies exactly as many arguments as
anonymous markers it consumes, no embedded string carries a stray `$`,
and no anonymous marker is immediately followed by a decimal digit — a
template like `x = ?1` would fuse the substituted number with that digit
and render `$11`, breaking the numbering), *provided no WHERE-family call
occurs after a `Having` call* (the clause order the spec's property
presumes; see the counterexample for the interleaved order), a successful
`Build()` renders SQL whose placeholder numbers across WHERE, GROUP BY,
HAVING, LIMIT and OFFSET are exactly `$1, $2, …` strictly increasing in
order of first appearance with no gaps or repeats, the k-th placeholder
binding the k-th returned argument. -/
theorem select_placeholders_strictly_increasing (table : GoStr)
    (cols : List GoStr) (ops : List SelOp) (sql : GoStr) (args : List GoVal)
    (htab : '$' ∉ table) (hcols : ∀ s ∈ cols, '$' ∉ s)
    (hwf : ∀ o ∈ ops, o.wf = true) (hord : noWhereAfterHaving ops = true)
    (hb : (applyOps (BuildSelect .postgres table cols) ops).Build [] =
      (sql, some args, none)) :
    scanPH sql = List.range' 1 args.length := by
  have hInv : SelInv (applyOps (BuildSelect .postgres table cols) ops) :=
    selInv_applyOps ops _ hwf hord
      (Or.inl (BuildSelect_having _ _ _))
      (selInv_init table cols htab hcols)
  have hop : (applyOps (BuildSelect .postgres table cols) ops).op =
      str "SELECT" := by
    rw [applyOps_op, BuildSelect_op]
  unfold QueryBuilder.Build at hb
  cases herr2 : (applyOps (BuildSelect .postgres table cols) ops).err with
  | some e =>
      rw [herr2] at hb
      exact absurd (congrArg (fun t => t.2.2) hb) (by simp)
  | none =>
      rw [herr2] at hb
      simp only at hb
      rw [if_pos hop] at hb
      obtain ⟨sql0, args0, heq, hscan⟩ :=
        buildSelect_scan _ hInv herr2
      rw [heq] at hb
      have h1 : sql0 = sql := congrArg (fun t => t.1) hb
      have h2 : some args0 = some args := congrArg (fun t => t.2.1) hb
      have h3 : args0 = args := Option.some_inj.mp h2
      rw [← h1, ← h3]
      exact hscan

/-- C5 witness: a concrete well-formed clause-ordered SELECT chain; the
rendered SQL carries `$1 $2 $3 $4` in order, one per returned argument. -/
theorem select_placeholders_strictly_increasing_witness :
    scanPH (str "SELECT * FROM users WHERE age > $1 GROUP BY city HAVING COUNT(*) > $2 LIMIT $3 OFFSET $4") =
      List.range' 1
        [GoVal.vInt 18, GoVal.vInt 5, GoVal.vInt 10,
          GoVal.vInt 20].length :=
  select_placeholders_strictly_increasing (str "users") []
    [.opWhere (str "age > ?") [GoVal.vInt 18],
     .opGroupBy [str "city"],
     .opHaving (str "COUNT(*) > ?") [GoVal.vInt 5],
     .opLimit 10, .opOffset 20]
    (str "SELECT * FROM users WHERE age > $1 GROUP BY city HAVING COUNT(*) > $2 LIMIT $3 OFFSET $4")
    [GoVal.vInt 18, GoVal.vInt 5, GoVal.vInt 10, GoVal.vInt 20]
    (by decide) (by decide) (by decide) (by decide) (by decide)
